import Mathlib

/-!
Shallow embedding of the task-management API's tag/task query engine
(src/services/taskService.js, src/services/tagService.js, and the request
validation schemas), together with proofs about its filtering, counting,
canonicalization and error behaviour.

Strings are modelled through their character lists; JavaScript's
`trim`, `toLowerCase`, `toUpperCase` and single-character `split` are
modelled by executable functions on `List Char` (ASCII semantics, which
also matches SQLite's `lower()`).  Timestamps are modelled as naturals:
ISO-8601 strings produced from a single clock compare lexicographically
exactly as their instants compare, and the wall-clock reading at each write
is passed in explicitly as a parameter.  The SQLite store is modelled as
lists of rows; queries become list computations, with result order for
queries lacking an ORDER BY modelled as the table/scan order.
-/

deriving instance DecidableEq for Except

namespace TaskApi

/-! ## Character and string primitives -/

/-- Model of a single-character JavaScript `String.prototype.split`:
splitting on a separator character, keeping empty segments. -/
def splitCharAux (sep : Char) : List Char → List Char → List String
  | [], acc => [⟨acc.reverse⟩]
  | c :: rest, acc =>
      if c = sep then ⟨acc.reverse⟩ :: splitCharAux sep rest []
      else splitCharAux sep rest (c :: acc)

/-- JavaScript `s.split(sep)` for a one-character separator. -/
def splitChar (sep : Char) (s : String) : List String :=
  splitCharAux sep s.data []

/-- Character-list trimming: drop leading and trailing whitespace. -/
def trimChars (l : List Char) : List Char :=
  ((l.dropWhile Char.isWhitespace).reverse.dropWhile Char.isWhitespace).reverse

/-- JavaScript `s.trim()` (ASCII whitespace model). -/
def jsTrim (s : String) : String := ⟨trimChars s.data⟩

/-- ASCII lowercasing of a string; models both JavaScript `toLowerCase`
and SQLite's `lower()` on the ASCII inputs this API handles. -/
def sqlLower (s : String) : String := ⟨s.data.map Char.toLower⟩

/-- JavaScript `s.toUpperCase()` (ASCII model). -/
def jsToUpper (s : String) : String := ⟨s.data.map Char.toUpper⟩

/-- Canonical form of a tag name: trimmed, then lowercased, exactly as
`findOrCreateTag` computes `canonicalTagName` from its input. -/
def canonName (s : String) : String := sqlLower (jsTrim s)

/-! ## Data model

Logical schema of the SQLite store:
tasks(id, title, description, completed, createdAt, updatedAt, userId),
tags(id, name), task_tags(task_id, tag_id).  Row order in each list is the
table scan order; `nextTagId` models the tags AUTOINCREMENT counter. -/

structure Tg where
  id : Nat
  name : String
deriving DecidableEq, Repr

structure Task where
  id : Nat
  title : String
  description : String
  completed : Bool
  createdAt : Nat
  updatedAt : Nat
  userId : Nat
deriving DecidableEq, Repr

structure DB where
  tasks : List Task
  tags : List Tg
  taskTags : List (Nat × Nat)
  nextTagId : Nat
deriving DecidableEq, Repr

/-- Well-formedness that the SQLite schema guarantees: primary-key columns
are duplicate-free and the AUTOINCREMENT counter is past every tag id. -/
def WF (db : DB) : Prop :=
  (db.tasks.map Task.id).Nodup ∧
  (db.tags.map Tg.id).Nodup ∧
  ∀ ta ∈ db.tags, ta.id < db.nextTagId

instance (db : DB) : Decidable (WF db) := by
  unfold WF
  infer_instance

/-! ## Canonical tag store (taskService.js) -/

/-- Query `SELECT id, name FROM tags WHERE lower(name) = lower(?)`:
first row whose lowercased stored name equals the lowercased argument. -/
def findTagByLowerName (db : DB) (q : String) : Option Tg :=
  db.tags.find? (fun ta => sqlLower ta.name = sqlLower q)

/-- Embedding of `findOrCreateTag(name)`: trims the input and returns
`none` (the source returns `null`) when the trimmed name is empty;
otherwise canonicalizes to lowercase, looks the tag up case-insensitively
and inserts a fresh row with the canonical name when absent.  The source's
`SQLITE_CONSTRAINT` catch handler only fires when a concurrent writer
inserts between the SELECT and the INSERT; under the serialized store
semantics modelled here that branch is unreachable, since the preceding
lookup already returned no row. -/
def findOrCreateTag (db : DB) (name : String) : Option Tg × DB :=
  if jsTrim name = "" then (none, db)
  else
    match findTagByLowerName db (canonName name) with
    | some tag => (some { tag with name := canonName name }, db)
    | none =>
        (some ⟨db.nextTagId, canonName name⟩,
         { db with
             tags := db.tags ++ [⟨db.nextTagId, canonName name⟩],
             nextTagId := db.nextTagId + 1 })

/-- Embedding of `getTagsForTask(taskId)`: the join
`tags JOIN task_tags ON tags.id = task_tags.tag_id WHERE task_id = ?`. -/
def getTagsForTask (db : DB) (taskId : Nat) : List Tg :=
  db.taskTags.flatMap (fun a =>
    if a.1 = taskId then db.tags.filter (fun ta => ta.id = a.2) else [])

/-- One resolution step of `addTagsToTask`: the name goes through
`findOrCreateTag` and a `null` result (empty name) is filtered out. -/
def resolveStep (acc : List Tg × DB) (name : String) : List Tg × DB :=
  match findOrCreateTag acc.2 name with
  | (some tag, db2) => (acc.1 ++ [tag], db2)
  | (none, db2) => (acc.1, db2)

/-- Resolution run of `addTagsToTask` over all requested names.  The
source issues the `findOrCreateTag` calls with `Promise.all`; the store
serializes them, so they are modelled in list order. -/
def resolveTags (db : DB) (tagNames : List String) : List Tg × DB :=
  tagNames.foldl resolveStep ([], db)

/-- Association inserts of `addTagsToTask`:
`INSERT OR IGNORE INTO task_tags (task_id, tag_id) VALUES (?, ?)`. -/
def insertAssocs (taskId : Nat) (resolved : List Tg) (tts : List (Nat × Nat)) :
    List (Nat × Nat) :=
  resolved.foldl
    (fun acc tag => if (taskId, tag.id) ∈ acc then acc else acc ++ [(taskId, tag.id)])
    tts

/-- Embedding of `addTagsToTask(taskId, tagNames, userId)`: no-op for an
empty list or when the task does not exist or is not owned by the user;
otherwise resolves every name via `findOrCreateTag` and idempotently
inserts the associations. -/
def addTagsToTask (db : DB) (taskId : Nat) (tagNames : List String) (userId : Nat) :
    DB :=
  if tagNames = [] then db
  else if (db.tasks.find? (fun t => t.id = taskId ∧ t.userId = userId)).isNone then db
  else
    let r := resolveTags db tagNames
    { r.2 with taskTags := insertAssocs taskId r.1 r.2.taskTags }

/-- Embedding of `clearTagsForTask(taskId)`:
`DELETE FROM task_tags WHERE task_id = ?`. -/
def clearTagsForTask (db : DB) (taskId : Nat) : DB :=
  { db with taskTags := db.taskTags.filter (fun a => ¬ a.1 = taskId) }

/-! ## Tag mutation operations (tagService.js) -/

/-- Typed error matching `AppError(message, statusCode)` from
src/utils/AppError.js. -/
structure AppErr where
  message : String
  statusCode : Nat
deriving DecidableEq, Repr

/-- Permission query of `deleteTag` and `updateTag`:
`SELECT 1 FROM task_tags tt JOIN tasks t ON tt.task_id = t.id
WHERE tt.tag_id = ? AND t.userId = ? LIMIT 1`. -/
def userUsesTag (db : DB) (tagId userId : Nat) : Bool :=
  db.taskTags.any (fun a =>
    a.2 = tagId ∧ db.tasks.any (fun t => a.1 = t.id ∧ t.userId = userId))

/-- Message of the 403 permission error thrown by `deleteTag`. -/
def permDeleteMsg : String :=
  "You do not have permission to delete this tag as it is not associated with your tasks."

/-- Message of the 400 still-in-use error thrown by `deleteTag`. -/
def inUseMsg : String :=
  "Tag cannot be deleted as it is still associated with one or more tasks."

/-- Embedding of `deleteTag(tagId, userId)` from tagService.js:
404 when the tag id is unknown, 403 when the requesting user has no task
associated with the tag, 400 when any task system-wide still references
it, and only then the row delete (with its own 404 guard on zero
changes). -/
def deleteTag (db : DB) (tagId userId : Nat) : Except AppErr DB :=
  if (db.tags.find? (fun t => t.id = tagId)).isNone then
    .error ⟨"Tag not found.", 404⟩
  else if ¬ userUsesTag db tagId userId then
    .error ⟨permDeleteMsg, 403⟩
  else if db.taskTags.any (fun a => a.2 = tagId) then
    .error ⟨inUseMsg, 400⟩
  else
    let remaining := db.tags.filter (fun t => ¬ t.id = tagId)
    if db.tags.length = remaining.length then
      .error ⟨"Tag not found or could not be deleted (it may have been removed by another process).", 404⟩
    else
      .ok { db with tags := remaining }

/-! ## Query builder / filter engine (getAllTasks in taskService.js) -/

structure ListOptions where
  page : Option Nat := none
  limit : Option Nat := none
  completed : Option String := none
  sortBy : Option String := none
  tags : Option String := none
  tagMatchMode : Option String := none
deriving DecidableEq, Repr

/-- Canonicalized tag filter: `options.tags`, when a non-empty string (the
source tests JavaScript truthiness), split on commas, each segment trimmed
and lowercased, empty segments dropped. -/
def tagNamesToFilterOf (tags : Option String) : List String :=
  match tags with
  | none => []
  | some s =>
      if s = "" then []
      else ((splitChar ',' s).map canonName).filter (fun t => ¬ t = "")

/-- Effective match mode, `options.tagMatchMode || 'all'`: any falsy
value — the field absent or the empty string — yields "all"; every other
string is kept as is. -/
def effectiveMatchMode (m : Option String) : String :=
  match m with
  | none => "all"
  | some v => if v = "" then "all" else v

/-- Completed clause of the WHERE part: when `options.completed` is given
the source compares against 1 exactly when the option is the string
"true" (or boolean true), and against 0 otherwise. -/
def completedOk (copt : Option String) (t : Task) : Bool :=
  match copt with
  | none => true
  | some s => t.completed = (if s = "true" then true else false)

/-- The FROM/WHERE part shared by the tag-filtered queries:
`tasks t INNER JOIN task_tags tt ON t.id = tt.task_id INNER JOIN tags ta
ON tt.tag_id = ta.id WHERE t.userId = ? AND lower(ta.name) IN
(lower(?), ...)` and optionally `AND t.completed = ?`.  Join-result order
is modelled as task-major scan order. -/
def joinRows (db : DB) (userId : Nat) (copt : Option String) (req : List String) :
    List (Task × Tg) :=
  (db.tasks.flatMap fun t =>
    db.taskTags.flatMap fun a =>
      db.tags.filterMap fun ta =>
        if a.1 = t.id ∧ a.2 = ta.id then some (t, ta) else none).filter
    fun r =>
      r.1.userId = userId ∧ sqlLower r.2.name ∈ req.map sqlLower ∧
        completedOk copt r.1

/-- HAVING aggregate of the "all" match mode for one task group:
`COUNT(DISTINCT lower(ta.name))` over the join rows of that task. -/
def distinctNameCount (rows : List (Task × Tg)) (t : Task) : Nat :=
  (((rows.filter (fun r => r.1 = t)).map (fun r => sqlLower r.2.name)).dedup).length

/-- The same aggregate grouped by `t.id`, as in the count query. -/
def distinctNameCountById (rows : List (Task × Tg)) (i : Nat) : Nat :=
  (((rows.filter (fun r => r.1.id = i)).map (fun r => sqlLower r.2.name)).dedup).length

/-- Rows of the main page query before ORDER BY and LIMIT:
`SELECT DISTINCT t.*` with the optional joins, plus `GROUP BY t.* HAVING
COUNT(DISTINCT lower(ta.name)) = ?` in "all" mode.  A mode other than
"all" adds no GROUP BY, so with a tag filter it selects the distinct
joined tasks. -/
def pageRowsPreSort (db : DB) (userId : Nat) (o : ListOptions) : List Task :=
  if tagNamesToFilterOf o.tags = [] then
    (db.tasks.filter (fun t => t.userId = userId ∧ completedOk o.completed t)).dedup
  else if effectiveMatchMode o.tagMatchMode = "all" then
    (((joinRows db userId o.completed (tagNamesToFilterOf o.tags)).map Prod.fst).dedup).filter
      (fun t =>
        distinctNameCount (joinRows db userId o.completed (tagNamesToFilterOf o.tags)) t =
          (tagNamesToFilterOf o.tags).length)
  else
    ((joinRows db userId o.completed (tagNamesToFilterOf o.tags)).map Prod.fst).dedup

/-- Result of the separately built count query, in the source's three
shapes: "all" mode counts the rows of `SELECT DISTINCT t.id ... GROUP BY
t.id HAVING COUNT(DISTINCT lower(ta_count.name)) = ?`; "any" mode is
`COUNT(DISTINCT t.id)` over the join; every other case is `COUNT(t.id)` —
and with a tag filter and an unrecognized mode the joins are still in the
FROM clause, so duplicate join rows are counted. -/
def countTotal (db : DB) (userId : Nat) (o : ListOptions) : Nat :=
  if tagNamesToFilterOf o.tags = [] then
    (db.tasks.filter (fun t => t.userId = userId ∧ completedOk o.completed t)).length
  else if effectiveMatchMode o.tagMatchMode = "all" then
    ((((joinRows db userId o.completed (tagNamesToFilterOf o.tags)).map
        (fun r => r.1.id)).dedup).filter
      (fun i =>
        distinctNameCountById (joinRows db userId o.completed (tagNamesToFilterOf o.tags)) i =
          (tagNamesToFilterOf o.tags).length)).length
  else if effectiveMatchMode o.tagMatchMode = "any" then
    (((joinRows db userId o.completed (tagNamesToFilterOf o.tags)).map
        (fun r => r.1.id)).dedup).length
  else
    ((joinRows db userId o.completed (tagNamesToFilterOf o.tags)).map
        (fun r => r.1.id)).length

/-- Ascending comparison for `ORDER BY t.<field>`; completed is stored as
0/1 in the table. -/
def fieldLe (field : String) (a b : Task) : Bool :=
  if field = "title" then a.title ≤ b.title
  else if field = "completed" then (cond a.completed 1 0 : Nat) ≤ cond b.completed 1 0
  else if field = "updatedAt" then a.updatedAt ≤ b.updatedAt
  else a.createdAt ≤ b.createdAt

/-- Sorted insertion, the backend of the ORDER BY model. -/
def insertLe (le : Task → Task → Bool) (a : Task) : List Task → List Task
  | [] => [a]
  | b :: l => if le a b then a :: b :: l else b :: insertLe le a l

/-- Insertion sort modelling ORDER BY. -/
def sortByLe (le : Task → Task → Bool) : List Task → List Task
  | [] => []
  | a :: l => insertLe le a (sortByLe le l)

/-- The whitelist `allowedFields` of getAllTasks (checked with a
case-sensitive `includes`). -/
def allowedSortFields : List String := ["createdAt", "updatedAt", "title", "completed"]

/-- The second segment of `sortBy` requests DESC exactly when it is
present, non-empty (JavaScript truthiness) and uppercases to "DESC". -/
def sortDescRequested (s : String) : Bool :=
  match (splitChar '_' s)[1]? with
  | none => false
  | some x => if x = "" then false else jsToUpper x = "DESC"

/-- ORDER BY composition from `options.sortBy` (shape `field_ORDER`): a
recognized field sorts by it, descending exactly when the second segment
uppercases to "DESC"; an unrecognized field appends no ORDER BY at all,
leaving the scan order; an absent or empty `sortBy` (JavaScript
falsiness) gives the default `ORDER BY t.createdAt DESC`. -/
def orderedRows (sortBy : Option String) (rows : List Task) : List Task :=
  match sortBy with
  | none => sortByLe (fun a b => b.createdAt ≤ a.createdAt) rows
  | some s =>
      if s = "" then sortByLe (fun a b => b.createdAt ≤ a.createdAt) rows
      else if (splitChar '_' s).headD "" ∈ allowedSortFields then
        (if sortDescRequested s then
          sortByLe (fun a b => fieldLe ((splitChar '_' s).headD "") b a) rows
        else sortByLe (fieldLe ((splitChar '_' s).headD "")) rows)
      else rows

/-- LIMIT/OFFSET slice: `LIMIT limit OFFSET (page - 1) * limit`. -/
def pageSlice (page limit : Nat) (rows : List Task) : List Task :=
  (rows.drop ((page - 1) * limit)).take limit

structure TaskWithTags where
  task : Task
  tags : List Tg
deriving DecidableEq, Repr

structure ListResult where
  tasks : List TaskWithTags
  total : Nat
  page : Nat
  limit : Nat
  totalPages : Nat
deriving DecidableEq, Repr

/-- Model of `parseInt(x, 10) || default` for the page/limit options. -/
def parseOr (x : Option Nat) (dflt : Nat) : Nat :=
  match x with
  | none => dflt
  | some v => if v = 0 then dflt else v

/-- Embedding of `getAllTasks(userId, options)`: runs the count query,
sorts and slices the page query, and hydrates each returned task with its
full current tag list; `totalPages` is `Math.ceil(total / limit)`. -/
def getAllTasks (db : DB) (userId : Nat) (o : ListOptions) : ListResult :=
  { tasks := (pageSlice (parseOr o.page 1) (parseOr o.limit 10)
        (orderedRows o.sortBy (pageRowsPreSort db userId o))).map
      (fun t => ⟨t, getTagsForTask db t.id⟩),
    total := countTotal db userId o,
    page := parseOr o.page 1,
    limit := parseOr o.limit 10,
    totalPages := (countTotal db userId o + parseOr o.limit 10 - 1) / parseOr o.limit 10 }

/-! ## Request validation (middleware/validation.js, getTasksQuerySchema) -/

/-- Validation of the `tagMatchMode` query field: a Joi trimmed string
restricted to the values "all" and "any"; the field may be absent.  Any
other value makes the request fail with a 400 validation error before the
service runs. -/
def tagMatchModeValid (m : Option String) : Bool :=
  match m with
  | none => true
  | some v => jsTrim v = "all" ∨ jsTrim v = "any"

/-- Validation of the `sortBy` query field: the case-insensitive Joi
pattern `(createdAt|updatedAt|title|completed)_(ASC|DESC)` anchored at
both ends. -/
def sortByValid (s : String) : Bool :=
  allowedSortFields.any (fun f =>
    sqlLower s = sqlLower (f ++ "_ASC") ∨ sqlLower s = sqlLower (f ++ "_DESC"))

/-! ## Task record manager (taskService.js) -/

/-- Embedding of `getTaskById(id, userId)`: ownership-scoped lookup with
tag hydration. -/
def getTaskById (db : DB) (id userId : Nat) : Option TaskWithTags :=
  match db.tasks.find? (fun t => t.id = id ∧ t.userId = userId) with
  | none => none
  | some t => some ⟨t, getTagsForTask db t.id⟩

structure UpdateData where
  title : Option String := none
  description : Option String := none
  completed : Option Bool := none
  tags : Option (List String) := none
deriving DecidableEq, Repr

/-- The `UPDATE tasks SET title = ?, description = ?, completed = ?,
updatedAt = ? WHERE id = ? AND userId = ?` statement of updateTask, with
the source's fallback of every absent field to the existing value. -/
def applyFieldUpdates (db : DB) (id : Nat) (upd : UpdateData) (userId now : Nat)
    (existing : TaskWithTags) : DB :=
  { db with tasks := db.tasks.map (fun t =>
      if t.id = id ∧ t.userId = userId then
        { t with
            title := upd.title.getD existing.task.title,
            description := upd.description.getD existing.task.description,
            completed := upd.completed.getD existing.task.completed,
            updatedAt := now }
      else t) }

/-- Tag branch of updateTask: a present `tags` key clears the task's
associations and attaches the new list when it is non-empty; an absent
key changes nothing. -/
def applyTagUpdates (db1 : DB) (id : Nat) (upd : UpdateData) (userId : Nat) : DB :=
  match upd.tags with
  | none => db1
  | some names =>
      if names = [] then clearTagsForTask db1 id
      else addTagsToTask (clearTagsForTask db1 id) id names userId

/-- Embedding of `updateTask(id, updateData, userId)`.  The wall-clock
string produced by `new Date().toISOString()` is the explicit `now`
argument; two calls within the same millisecond observe the same reading.
Ownership is checked first through `getTaskById`, and the result is
re-read through the same path. -/
def updateTask (db : DB) (id : Nat) (upd : UpdateData) (userId now : Nat) :
    Option TaskWithTags × DB :=
  match getTaskById db id userId with
  | none => (none, db)
  | some existing =>
      let db2 := applyTagUpdates (applyFieldUpdates db id upd userId now existing) id upd userId
      (getTaskById db2 id userId, db2)

/-! ## Concrete fixtures used by witnesses and counterexamples -/

def exTask1 : Task := ⟨1, "T1", "", false, 1, 1, 7⟩

def exTask2 : Task := ⟨2, "T2", "", false, 2, 2, 7⟩

def exTask3 : Task := ⟨3, "T3", "", false, 3, 3, 7⟩

def exTagA : Tg := ⟨11, "a"⟩

def exTagB : Tg := ⟨12, "b"⟩

def exTagC : Tg := ⟨13, "c"⟩

/-- Store with user 7 owning tasks 1 (tags a, b), 2 (tag a) and 3
(tags b, c). -/
def exDb : DB :=
  ⟨[exTask1, exTask2, exTask3], [exTagA, exTagB, exTagC],
   [(1, 11), (1, 12), (2, 11), (3, 12), (3, 13)], 14⟩

/-- Store where tag 5 is referenced only by task 10 of user 2; user 1
owns nothing. -/
def exDbC4 : DB := ⟨[⟨10, "T", "", false, 0, 0, 2⟩], [⟨5, "shared"⟩], [(10, 5)], 6⟩

/-- Store with a single task of user 1 whose updatedAt is 0. -/
def exDbC5 : DB := ⟨[⟨1, "T", "", false, 0, 0, 1⟩], [], [], 1⟩

/-- Partial update touching the title and replacing the tag set with a
list containing whitespace, mixed case and an empty segment. -/
def exUpd : UpdateData := ⟨some "New", none, none, some [" B ", "c", ""]⟩

/-! ### Lemmas about the string primitives -/

theorem char_eq_of_toNat_eq {a b : Char} (h : a.toNat = b.toNat) : a = b :=
  Char.eq_of_val_eq (UInt32.ext h)

theorem toNat_ofNat_shift {c : Char} (h1 : 65 ≤ c.toNat) (h2 : c.toNat ≤ 90) :
    (Char.ofNat (c.toNat + 32)).toNat = c.toNat + 32 := by
  generalize hm : c.toNat = m at h1 h2
  interval_cases m <;> decide

theorem char_eq_iff_toNat (c d : Char) : c = d ↔ c.toNat = d.toNat :=
  ⟨fun h => congrArg Char.toNat h, char_eq_of_toNat_eq⟩

theorem toLower_idem (c : Char) : c.toLower.toLower = c.toLower := by
  unfold Char.toLower
  by_cases h : 65 ≤ c.toNat ∧ c.toNat ≤ 90
  · have hv := toNat_ofNat_shift h.1 h.2
    simp only [h, and_self, if_true, hv]
    have hno : ¬ (c.toNat + 32 ≥ 65 ∧ c.toNat + 32 ≤ 90) := by omega
    rw [if_neg hno]
  · simp [h]

theorem not_ws_of_ge_33 {c : Char} (h1 : 33 ≤ c.toNat) : c.isWhitespace = false := by
  have h32 : ¬ c = ' ' := by
    intro he; rw [char_eq_iff_toNat] at he
    rw [show (' ').toNat = 32 from rfl] at he; omega
  have h9 : ¬ c = '\t' := by
    intro he; rw [char_eq_iff_toNat] at he
    rw [show ('\t').toNat = 9 from rfl] at he; omega
  have h13 : ¬ c = '\x0d' := by
    intro he; rw [char_eq_iff_toNat] at he
    rw [show ('\x0d').toNat = 13 from rfl] at he; omega
  have h10 : ¬ c = '\n' := by
    intro he; rw [char_eq_iff_toNat] at he
    rw [show ('\n').toNat = 10 from rfl] at he; omega
  unfold Char.isWhitespace
  simp [h32, h9, h13, h10]

theorem toLower_isWhitespace (c : Char) :
    (Char.toLower c).isWhitespace = c.isWhitespace := by
  unfold Char.toLower
  by_cases h : 65 ≤ c.toNat ∧ c.toNat ≤ 90
  · simp only [h, and_self, if_true]
    have hv := toNat_ofNat_shift h.1 h.2
    have hup : c.isWhitespace = false := not_ws_of_ge_33 (by omega)
    have hlow : (Char.ofNat (c.toNat + 32)).isWhitespace = false :=
      not_ws_of_ge_33 (by rw [hv]; omega)
    rw [hup, hlow]
  · simp [h]

theorem dropWhile_idem {α : Type} (p : α → Bool) (l : List α) :
    (l.dropWhile p).dropWhile p = l.dropWhile p := by
  induction l with
  | nil => rfl
  | cons a l ih =>
      by_cases h : p a <;> simp [List.dropWhile_cons, h, ih]

theorem dropWhile_eq_self_of_head {α : Type} (p : α → Bool) (l : List α)
    (h : ∀ a, l.head? = some a → p a = false) : l.dropWhile p = l := by
  cases l with
  | nil => rfl
  | cons a l =>
      have := h a rfl
      simp [List.dropWhile_cons, this]

theorem head?_dropWhile_false {α : Type} (p : α → Bool) (l : List α) :
    ∀ a, (l.dropWhile p).head? = some a → p a = false := by
  induction l with
  | nil => intro a h; simp at h
  | cons b l ih =>
      intro a h
      by_cases hb : p b
      · exact ih a (by simpa [List.dropWhile_cons, hb] using h)
      · simp [List.dropWhile_cons, hb] at h
        subst h
        simpa using hb

theorem trimChars_head {l : List Char} {a : Char}
    (h : (trimChars l).head? = some a) : a.isWhitespace = false := by
  unfold trimChars at h
  set A := l.dropWhile Char.isWhitespace with hA
  set B := A.reverse.dropWhile Char.isWhitespace with hB
  have hAhead := head?_dropWhile_false Char.isWhitespace l
  have hsuf : B <:+ A.reverse := List.dropWhile_suffix _
  obtain ⟨t, ht⟩ := hsuf
  have hArev : A = B.reverse ++ t.reverse := by
    have := congrArg List.reverse ht
    simpa [List.reverse_append] using this.symm
  rcases he : B.reverse with _ | ⟨x, xs⟩
  · rw [he] at h; simp at h
  · rw [he] at h
    simp at h
    have hhead : A.head? = some a := by
      rw [hArev, he, h]
      simp
    exact hAhead a (by rw [hA] at hhead; exact hhead)

theorem trimChars_idem (l : List Char) : trimChars (trimChars l) = trimChars l := by
  have h1 : (trimChars l).dropWhile Char.isWhitespace = trimChars l :=
    dropWhile_eq_self_of_head _ _ (fun a ha => trimChars_head ha)
  rw [trimChars, h1, trimChars, List.reverse_reverse, dropWhile_idem]

theorem jsTrim_idem (s : String) : jsTrim (jsTrim s) = jsTrim s := by
  unfold jsTrim
  exact congrArg String.mk (trimChars_idem s.data)

theorem map_toLower_idem (l : List Char) :
    (l.map Char.toLower).map Char.toLower = l.map Char.toLower := by
  rw [List.map_map]
  exact List.map_congr_left (fun a _ => toLower_idem a)

theorem sqlLower_idem (s : String) : sqlLower (sqlLower s) = sqlLower s := by
  unfold sqlLower
  exact congrArg String.mk (map_toLower_idem s.data)

theorem trimChars_map_toLower (l : List Char) :
    trimChars (l.map Char.toLower) = (trimChars l).map Char.toLower := by
  have hcomp : (Char.isWhitespace ∘ Char.toLower) = Char.isWhitespace := by
    funext c; exact toLower_isWhitespace c
  unfold trimChars
  rw [List.dropWhile_map, hcomp, ← List.map_reverse, List.dropWhile_map, hcomp,
    ← List.map_reverse]

theorem jsTrim_sqlLower (s : String) : jsTrim (sqlLower s) = sqlLower (jsTrim s) := by
  unfold jsTrim sqlLower
  exact congrArg String.mk (trimChars_map_toLower s.data)

theorem canonName_idem (s : String) : canonName (canonName s) = canonName s := by
  unfold canonName
  rw [jsTrim_sqlLower, jsTrim_idem, sqlLower_idem]

theorem sqlLower_canonName (s : String) : sqlLower (canonName s) = canonName s := by
  unfold canonName
  rw [sqlLower_idem]

theorem jsTrim_canonName (s : String) : jsTrim (canonName s) = canonName s := by
  unfold canonName
  rw [jsTrim_sqlLower, jsTrim_idem]

theorem string_eq_empty_of_data {s : String} (h : s.data = []) : s = "" := by
  cases s with
  | mk data => cases h; rfl

theorem canonName_ne_empty_of_trim {s : String} (h : jsTrim s ≠ "") :
    canonName s ≠ "" := by
  intro hc
  apply h
  unfold canonName sqlLower at hc
  have hmap : (jsTrim s).data.map Char.toLower = [] := congrArg String.data hc
  have hdata : (jsTrim s).data = [] := by
    rcases he : (jsTrim s).data with _ | ⟨c, l⟩
    · rfl
    · rw [he] at hmap; simp at hmap
  exact string_eq_empty_of_data hdata


/-! ### Support lemmas for the tag store -/

theorem canonName_empty_of_trim {s : String} (h : jsTrim s = "") : canonName s = "" := by
  unfold canonName
  rw [h]
  rfl

theorem trim_empty_of_canonName {s : String} (h : canonName s = "") : jsTrim s = "" := by
  by_contra hne
  exact canonName_ne_empty_of_trim hne h

theorem findOrCreateTag_tasks (db : DB) (n : String) :
    (findOrCreateTag db n).2.tasks = db.tasks := by
  unfold findOrCreateTag
  by_cases h : jsTrim n = ""
  · rw [if_pos h]
  · rw [if_neg h]
    cases hf : findTagByLowerName db (canonName n) <;> simp

theorem findOrCreateTag_taskTags (db : DB) (n : String) :
    (findOrCreateTag db n).2.taskTags = db.taskTags := by
  unfold findOrCreateTag
  by_cases h : jsTrim n = ""
  · rw [if_pos h]
  · rw [if_neg h]
    cases hf : findTagByLowerName db (canonName n) <;> simp

theorem findOrCreateTag_tags_grow (db : DB) (n : String) :
    db.tags <+: (findOrCreateTag db n).2.tags := by
  unfold findOrCreateTag
  by_cases h : jsTrim n = ""
  · rw [if_pos h]
  · rw [if_neg h]
    cases hf : findTagByLowerName db (canonName n) <;> simp [List.prefix_append]

theorem findOrCreateTag_WF {db : DB} (n : String) (hWF : WF db) :
    WF (findOrCreateTag db n).2 := by
  unfold findOrCreateTag
  by_cases h : jsTrim n = ""
  · rw [if_pos h]; exact hWF
  · rw [if_neg h]
    cases hf : findTagByLowerName db (canonName n) with
    | some ta0 => exact hWF
    | none =>
      obtain ⟨h1, h2, h3⟩ := hWF
      refine ⟨h1, ?_, ?_⟩
      · simp only [List.map_append, List.map_cons, List.map_nil]
        rw [List.nodup_append]
        refine ⟨h2, List.nodup_singleton _, ?_⟩
        intro i hi hmem
        simp at hmem
        subst hmem
        rw [List.mem_map] at hi
        obtain ⟨ta, hta, hid⟩ := hi
        exact absurd hid (Nat.ne_of_lt (h3 ta hta))
      · intro ta hta
        simp at hta
        rcases hta with hta | hta
        · exact Nat.lt_succ_of_lt (h3 ta hta)
        · rw [hta]
          exact Nat.lt_succ_self _

theorem findOrCreateTag_none_iff (db : DB) (n : String) :
    (findOrCreateTag db n).1 = none ↔ canonName n = "" := by
  unfold findOrCreateTag
  by_cases h : jsTrim n = ""
  · rw [if_pos h]; simp [canonName_empty_of_trim h]
  · rw [if_neg h]
    cases hf : findTagByLowerName db (canonName n) <;>
      simp [canonName_ne_empty_of_trim h]

theorem findOrCreateTag_cases (db : DB) (n : String) :
    (jsTrim n = "" ∧ findOrCreateTag db n = (none, db)) ∨
    (¬ jsTrim n = "" ∧ ∃ ta0 ∈ db.tags, sqlLower ta0.name = canonName n ∧
        findOrCreateTag db n = (some ⟨ta0.id, canonName n⟩, db)) ∨
    (¬ jsTrim n = "" ∧ findTagByLowerName db (canonName n) = none ∧
        findOrCreateTag db n = (some ⟨db.nextTagId, canonName n⟩,
          { db with tags := db.tags ++ [⟨db.nextTagId, canonName n⟩],
                    nextTagId := db.nextTagId + 1 })) := by
  by_cases he : jsTrim n = ""
  · exact Or.inl ⟨he, by unfold findOrCreateTag; rw [if_pos he]⟩
  · rcases hf : findTagByLowerName db (canonName n) with _ | ta0
    · refine Or.inr (Or.inr ⟨he, rfl, ?_⟩)
      unfold findOrCreateTag
      rw [if_neg he, hf]
    · have hmem : ta0 ∈ db.tags := List.mem_of_find?_eq_some hf
      have hp : sqlLower ta0.name = canonName n := by
        have := List.find?_some hf
        rw [sqlLower_canonName] at this
        simpa using this
      refine Or.inr (Or.inl ⟨he, ta0, hmem, hp, ?_⟩)
      unfold findOrCreateTag
      rw [if_neg he, hf]

theorem findOrCreateTag_some_spec {db : DB} {n : String} {tg : Tg}
    (h : (findOrCreateTag db n).1 = some tg) :
    tg.name = canonName n ∧
    ∃ ta ∈ (findOrCreateTag db n).2.tags,
      ta.id = tg.id ∧ sqlLower ta.name = canonName n := by
  rcases findOrCreateTag_cases db n with ⟨he, heq⟩ | ⟨he, ta0, hmem, hname, heq⟩ |
    ⟨he, hf, heq⟩
  · rw [heq] at h; simp at h
  · rw [heq] at h ⊢
    simp at h
    subst h
    exact ⟨rfl, ta0, hmem, rfl, hname⟩
  · rw [heq] at h ⊢
    simp at h
    subst h
    exact ⟨rfl, ⟨db.nextTagId, canonName n⟩, by simp, rfl, sqlLower_canonName n⟩

/-! ### Support lemmas for deleteTag -/

theorem find_tag_isNone_false {db : DB} {tagId : Nat}
    (hex : ∃ ta ∈ db.tags, ta.id = tagId) :
    (db.tags.find? (fun t => t.id = tagId)).isNone = false := by
  obtain ⟨ta, hta, hid⟩ := hex
  cases hfind : db.tags.find? (fun t => t.id = tagId) with
  | some v => rfl
  | none =>
      rw [List.find?_eq_none] at hfind
      exact absurd (by simp [hid]) (hfind ta hta)

theorem deleteTag_notFound_eq {db : DB} {tagId userId : Nat}
    (h1 : (db.tags.find? (fun t => t.id = tagId)).isNone = true) :
    deleteTag db tagId userId = .error ⟨"Tag not found.", 404⟩ := by
  unfold deleteTag
  rw [if_pos (by simp [h1])]

theorem deleteTag_perm_eq {db : DB} {tagId userId : Nat}
    (h1 : (db.tags.find? (fun t => t.id = tagId)).isNone = false)
    (h2 : userUsesTag db tagId userId = false) :
    deleteTag db tagId userId = .error ⟨permDeleteMsg, 403⟩ := by
  unfold deleteTag
  rw [if_neg (by simp [h1]), if_pos (by simp [h2])]

theorem deleteTag_inUse_eq {db : DB} {tagId userId : Nat}
    (h1 : (db.tags.find? (fun t => t.id = tagId)).isNone = false)
    (h2 : userUsesTag db tagId userId = true) :
    deleteTag db tagId userId = .error ⟨inUseMsg, 400⟩ := by
  have h3 : db.taskTags.any (fun a => a.2 = tagId) = true := by
    unfold userUsesTag at h2
    rw [List.any_eq_true] at h2 ⊢
    obtain ⟨a, ha, hc⟩ := h2
    simp at hc
    exact ⟨a, ha, by simp [hc.1]⟩
  unfold deleteTag
  rw [if_neg (by simp [h1]), if_neg (by simp [h2]), if_pos (by simp [h3])]

/-! ### Claim theorems: tag store and tag deletion -/

/-- C9 (amended): for every input whose trimmed form is empty,
findOrCreateTag does not raise any error: it returns null (`none`) and
creates no tag row — the store is returned unchanged. -/
theorem findOrCreateTag_empty_returns_null (db : DB) (s : String)
    (h : jsTrim s = "") : findOrCreateTag db s = (none, db) := by
  unfold findOrCreateTag
  rw [if_pos h]

/-- Witness for the C9 theorem at a concrete blank input. -/
theorem findOrCreateTag_empty_returns_null_witness :
    jsTrim " " = "" ∧ findOrCreateTag exDb " " = (none, exDb) :=
  ⟨by decide, findOrCreateTag_empty_returns_null exDb " " (by decide)⟩

/-- C9 counterexample: the claim says findOrCreateTag fails with
EmptyNameError on a blank input; the code instead succeeds, producing the
non-error empty result `null` (here `none`) with the store unchanged —
there is no error channel in this code path at all. -/
theorem findOrCreateTag_empty_counterexample :
    findOrCreateTag exDb "   " = (none, exDb) := by decide

/-- C7: for every input string whose trimmed form is non-empty,
findOrCreate resolves the raw input and its canonicalized form
(`s.trim().toLowerCase()`) to the same outcome — in particular the same
tag id — and the tag it returns carries the canonical name. -/
theorem findOrCreateTag_canonicalization_idempotent (db : DB) (s : String)
    (h : jsTrim s ≠ "") :
    (findOrCreateTag db s).1.isSome = true ∧
    findOrCreateTag db (sqlLower (jsTrim s)) = findOrCreateTag db s ∧
    (∀ tg db2, findOrCreateTag db s = (some tg, db2) → tg.name = canonName s) := by
  have hc : canonName s ≠ "" := canonName_ne_empty_of_trim h
  have htr : jsTrim (canonName s) = canonName s := jsTrim_canonName s
  have hcc : canonName (canonName s) = canonName s := canonName_idem s
  refine ⟨?_, ?_, ?_⟩
  · cases hres : (findOrCreateTag db s).1 with
    | some tg => rfl
    | none => exact absurd ((findOrCreateTag_none_iff db s).mp hres) hc
  · show findOrCreateTag db (canonName s) = findOrCreateTag db s
    unfold findOrCreateTag
    rw [if_neg h, if_neg (fun hx => hc (by rw [← htr]; exact hx)), hcc]
  · intro tg db2 heq
    have h1 : (findOrCreateTag db s).1 = some tg := by rw [heq]
    exact (findOrCreateTag_some_spec h1).1

/-- Witness for the C7 theorem at a concrete mixed-case input. -/
theorem findOrCreateTag_canonicalization_idempotent_witness :
    jsTrim " WoRk " ≠ "" ∧
    ((findOrCreateTag exDb " WoRk ").1.isSome = true ∧
     findOrCreateTag exDb (sqlLower (jsTrim " WoRk ")) = findOrCreateTag exDb " WoRk " ∧
     (∀ tg db2, findOrCreateTag exDb " WoRk " = (some tg, db2) →
        tg.name = canonName " WoRk ")) :=
  ⟨by decide, findOrCreateTag_canonicalization_idempotent exDb " WoRk " (by decide)⟩

/-- C10: deleteTag never removes a tag row.  No call returns a success
value (so the tags table is never changed); for an existing tag the call
fails with the 403 permission error when the requester owns no task
referencing it, and with the 400 still-in-use error when the requester
does own one — in which case the tag is necessarily still referenced. -/
theorem deleteTag_never_removes (db : DB) (tagId userId : Nat) :
    (∀ db2, ¬ deleteTag db tagId userId = .ok db2) ∧
    ((∃ ta ∈ db.tags, ta.id = tagId) → userUsesTag db tagId userId = false →
      deleteTag db tagId userId = .error ⟨permDeleteMsg, 403⟩) ∧
    ((∃ ta ∈ db.tags, ta.id = tagId) → userUsesTag db tagId userId = true →
      deleteTag db tagId userId = .error ⟨inUseMsg, 400⟩) := by
  refine ⟨?_, fun hex h2 => deleteTag_perm_eq (find_tag_isNone_false hex) h2,
    fun hex h2 => deleteTag_inUse_eq (find_tag_isNone_false hex) h2⟩
  intro db2
  cases h1 : (db.tags.find? (fun t => t.id = tagId)).isNone with
  | true => rw [deleteTag_notFound_eq h1]; simp
  | false =>
      cases h2 : userUsesTag db tagId userId with
      | true => rw [deleteTag_inUse_eq h1 h2]; simp
      | false => rw [deleteTag_perm_eq h1 h2]; simp

/-- Witness for the C10 theorem: both error branches on the concrete
stores, reached by applying the theorem. -/
theorem deleteTag_never_removes_witness :
    ((∃ ta ∈ exDb.tags, ta.id = 11) ∧ userUsesTag exDb 11 7 = true ∧
      deleteTag exDb 11 7 = .error ⟨inUseMsg, 400⟩) ∧
    ((∃ ta ∈ exDbC4.tags, ta.id = 5) ∧ userUsesTag exDbC4 5 1 = false ∧
      deleteTag exDbC4 5 1 = .error ⟨permDeleteMsg, 403⟩) :=
  ⟨⟨by decide, by decide, (deleteTag_never_removes exDb 11 7).2.2 (by decide) (by decide)⟩,
   ⟨by decide, by decide, (deleteTag_never_removes exDbC4 5 1).2.1 (by decide) (by decide)⟩⟩

/-- C4 (amended): deleting an existing tag that is still referenced by a
task of a different user while the requester owns no task referencing it
fails with the 403 PermissionError — not the InUseError — and produces no
success value, leaving the tag row and every association unchanged. -/
theorem deleteTag_foreign_reference_permission (db : DB) (tagId userId : Nat)
    (hex : ∃ ta ∈ db.tags, ta.id = tagId)
    (_href : ∃ a ∈ db.taskTags, a.2 = tagId ∧
      ∃ t ∈ db.tasks, t.id = a.1 ∧ ¬ t.userId = userId)
    (hown : userUsesTag db tagId userId = false) :
    deleteTag db tagId userId = .error ⟨permDeleteMsg, 403⟩ ∧
    ∀ db2, ¬ deleteTag db tagId userId = .ok db2 := by
  have hres := deleteTag_perm_eq (find_tag_isNone_false hex) hown
  exact ⟨hres, fun db2 hc => by rw [hres] at hc; cases hc⟩

/-- Witness for the amended C4 theorem on the concrete foreign-reference
store. -/
theorem deleteTag_foreign_reference_permission_witness :
    (∃ ta ∈ exDbC4.tags, ta.id = 5) ∧
    (∃ a ∈ exDbC4.taskTags, a.2 = 5 ∧
      ∃ t ∈ exDbC4.tasks, t.id = a.1 ∧ ¬ t.userId = 1) ∧
    userUsesTag exDbC4 5 1 = false ∧
    (deleteTag exDbC4 5 1 = .error ⟨permDeleteMsg, 403⟩ ∧
      ∀ db2, ¬ deleteTag exDbC4 5 1 = .ok db2) :=
  ⟨by decide, by decide, by decide,
   deleteTag_foreign_reference_permission exDbC4 5 1 (by decide) (by decide) (by decide)⟩

/-- C4 counterexample: in `exDbC4` tag 5 is referenced by user 2's task
10 and by no task of requester 1; the delete fails with the 403
permission error, whose status code differs from the 400 of the
InUseError the claim predicts (the spec's error taxonomy makes InUseError
400-equivalent). -/
theorem deleteTag_foreign_reference_counterexample :
    (∃ a ∈ exDbC4.taskTags, a.2 = 5 ∧
      ∃ t ∈ exDbC4.tasks, t.id = a.1 ∧ ¬ t.userId = 1) ∧
    userUsesTag exDbC4 5 1 = false ∧
    deleteTag exDbC4 5 1 = .error ⟨permDeleteMsg, 403⟩ ∧
    ¬ (403 : Nat) = 400 := by decide

/-! ### Support lemmas for updateTask -/

theorem resolveStep_tasks (acc : List Tg × DB) (n : String) :
    (resolveStep acc n).2.tasks = acc.2.tasks := by
  unfold resolveStep
  rcases hr : findOrCreateTag acc.2 n with ⟨otg, db2⟩
  have h := findOrCreateTag_tasks acc.2 n
  rw [hr] at h
  cases otg <;> simpa using h

theorem foldResolve_tasks (names : List String) (acc : List Tg × DB) :
    (names.foldl resolveStep acc).2.tasks = acc.2.tasks := by
  induction names generalizing acc with
  | nil => rfl
  | cons n ns ih => rw [List.foldl_cons, ih, resolveStep_tasks]

theorem addTagsToTask_tasks (db : DB) (taskId : Nat) (names : List String)
    (userId : Nat) : (addTagsToTask db taskId names userId).tasks = db.tasks := by
  unfold addTagsToTask
  by_cases h1 : names = []
  · rw [if_pos h1]
  · rw [if_neg h1]
    by_cases h2 : (db.tasks.find? (fun t => t.id = taskId ∧ t.userId = userId)).isNone
    · rw [if_pos h2]
    · rw [if_neg h2]
      exact foldResolve_tasks names ([], db)

theorem applyTagUpdates_tasks (db1 : DB) (id : Nat) (upd : UpdateData)
    (userId : Nat) : (applyTagUpdates db1 id upd userId).tasks = db1.tasks := by
  unfold applyTagUpdates
  rcases htags : upd.tags with _ | names
  · rfl
  · show (if names = [] then clearTagsForTask db1 id
      else addTagsToTask (clearTagsForTask db1 id) id names userId).tasks = db1.tasks
    by_cases h : names = []
    · rw [if_pos h]; rfl
    · rw [if_neg h]
      rw [addTagsToTask_tasks]
      rfl

theorem getTaskById_some_elim {db : DB} {id userId : Nat} {ex : TaskWithTags}
    (h : getTaskById db id userId = some ex) :
    db.tasks.find? (fun t => t.id = id ∧ t.userId = userId) = some ex.task := by
  unfold getTaskById at h
  rcases hf : db.tasks.find? (fun t => t.id = id ∧ t.userId = userId) with _ | t
  · rw [hf] at h; cases h
  · rw [hf] at h
    simp at h
    rw [← h]
    exact hf

theorem getTaskById_eq_of_find {db : DB} {id userId : Nat} {t : Task}
    (h : db.tasks.find? (fun t => t.id = id ∧ t.userId = userId) = some t) :
    getTaskById db id userId = some ⟨t, getTagsForTask db t.id⟩ := by
  unfold getTaskById
  rw [h]

theorem find?_map_of_pred_eq {α : Type} {p : α → Bool} {f : α → α} (l : List α)
    (hpf : ∀ a, p (f a) = p a) :
    (l.map f).find? p = (l.find? p).map f := by
  rw [List.find?_map]
  have hcomp : p ∘ f = p := funext hpf
  rw [hcomp]

theorem applyFieldUpdates_find (db : DB) (id : Nat) (upd : UpdateData)
    (userId now : Nat) (existing : TaskWithTags)
    (hfind : db.tasks.find? (fun t => t.id = id ∧ t.userId = userId) =
      some existing.task) :
    (applyFieldUpdates db id upd userId now existing).tasks.find?
        (fun t => t.id = id ∧ t.userId = userId) =
      some { existing.task with
        title := upd.title.getD existing.task.title,
        description := upd.description.getD existing.task.description,
        completed := upd.completed.getD existing.task.completed,
        updatedAt := now } := by
  unfold applyFieldUpdates
  rw [find?_map_of_pred_eq]
  · rw [hfind]
    have hp : existing.task.id = id ∧ existing.task.userId = userId := by
      have := List.find?_some hfind
      simpa using this
    simp [hp]
  · intro a
    by_cases hpa : a.id = id ∧ a.userId = userId
    · simp [hpa]
    · simp [hpa]

theorem updateTask_found_eq {db : DB} {id userId : Nat} {existing : TaskWithTags}
    (upd : UpdateData) (now : Nat)
    (hex : getTaskById db id userId = some existing) :
    updateTask db id upd userId now =
      (getTaskById
        (applyTagUpdates (applyFieldUpdates db id upd userId now existing) id upd userId)
        id userId,
       applyTagUpdates (applyFieldUpdates db id upd userId now existing) id upd userId) := by
  unfold updateTask
  rw [hex]

/-! ### Claim theorems: updateTask timestamps -/

/-- C5 (amended): every successful update stamps updatedAt with the
current wall-clock reading `now`; it therefore exceeds the prior
updatedAt exactly when the clock advanced between the writes, but two
successful updates issued within the same clock millisecond leave
updatedAt unchanged rather than strictly increasing. -/
theorem updateTask_sets_updatedAt_now (db : DB) (id : Nat) (upd : UpdateData)
    (userId now : Nat) (out : TaskWithTags) (db2 : DB)
    (h : updateTask db id upd userId now = (some out, db2)) :
    out.task.updatedAt = now ∧
    (∀ before : TaskWithTags, getTaskById db id userId = some before →
      before.task.updatedAt < now → before.task.updatedAt < out.task.updatedAt) := by
  rcases hex : getTaskById db id userId with _ | existing
  · unfold updateTask at h
    rw [hex] at h
    cases h
  · rw [updateTask_found_eq upd now hex] at h
    have hfind := getTaskById_some_elim hex
    have hup := applyFieldUpdates_find db id upd userId now existing hfind
    have hfind2 :
        (applyTagUpdates (applyFieldUpdates db id upd userId now existing) id upd
          userId).tasks.find? (fun t => t.id = id ∧ t.userId = userId) =
        some { existing.task with
          title := upd.title.getD existing.task.title,
          description := upd.description.getD existing.task.description,
          completed := upd.completed.getD existing.task.completed,
          updatedAt := now } := by
      rw [applyTagUpdates_tasks]
      exact hup
    have hout : out.task = { existing.task with
        title := upd.title.getD existing.task.title,
        description := upd.description.getD existing.task.description,
        completed := upd.completed.getD existing.task.completed,
        updatedAt := now } := by
      have := getTaskById_eq_of_find hfind2
      rw [this] at h
      have h1 := congrArg Prod.fst h
      simp at h1
      rw [← h1]
    refine ⟨by rw [hout], ?_⟩
    intro before _hbefore hlt
    rw [hout]
    exact hlt

/-- Witness for the C5 theorem: a concrete successful update at clock
reading 5. -/
theorem updateTask_sets_updatedAt_now_witness :
    updateTask exDbC5 1 ⟨none, none, some true, none⟩ 1 5 =
      (some ⟨⟨1, "T", "", true, 0, 5, 1⟩, []⟩, ⟨[⟨1, "T", "", true, 0, 5, 1⟩], [], [], 1⟩) ∧
    ((⟨⟨1, "T", "", true, 0, 5, 1⟩, []⟩ : TaskWithTags).task.updatedAt = 5 ∧
     (∀ before : TaskWithTags, getTaskById exDbC5 1 1 = some before →
        before.task.updatedAt < 5 →
          before.task.updatedAt <
            (⟨⟨1, "T", "", true, 0, 5, 1⟩, []⟩ : TaskWithTags).task.updatedAt)) :=
  ⟨by decide,
   updateTask_sets_updatedAt_now exDbC5 1 ⟨none, none, some true, none⟩ 1 5
     ⟨⟨1, "T", "", true, 0, 5, 1⟩, []⟩ ⟨[⟨1, "T", "", true, 0, 5, 1⟩], [], [], 1⟩
     (by decide)⟩

/-- C5 counterexample: two successful updates of task 1 issued at the
same clock reading 5 (rapid succession within one millisecond): the first
update leaves updatedAt at 5, and the second successful update returns
updatedAt 5 again — not strictly greater than the prior value, refuting
the claimed strict monotonicity. -/
theorem updateTask_rapid_updates_counterexample :
    ((updateTask exDbC5 1 ⟨some "A", none, none, none⟩ 1 5).1).map
        (fun o => o.task.updatedAt) = some 5 ∧
    ((updateTask (updateTask exDbC5 1 ⟨some "A", none, none, none⟩ 1 5).2 1
        ⟨some "B", none, none, none⟩ 1 5).1).map
        (fun o => o.task.updatedAt) = some 5 ∧
    ¬ (5 : Nat) < 5 := by decide

/-! ### Claim theorems: tagMatchMode defaulting -/

theorem pageRowsPreSort_congr (db : DB) (userId : Nat) (o o2 : ListOptions)
    (ht : o.tags = o2.tags) (hc : o.completed = o2.completed)
    (hm : effectiveMatchMode o.tagMatchMode = effectiveMatchMode o2.tagMatchMode) :
    pageRowsPreSort db userId o = pageRowsPreSort db userId o2 := by
  unfold pageRowsPreSort
  rw [ht, hc, hm]

theorem countTotal_congr (db : DB) (userId : Nat) (o o2 : ListOptions)
    (ht : o.tags = o2.tags) (hc : o.completed = o2.completed)
    (hm : effectiveMatchMode o.tagMatchMode = effectiveMatchMode o2.tagMatchMode) :
    countTotal db userId o = countTotal db userId o2 := by
  unfold countTotal
  rw [ht, hc, hm]

theorem pageRowsPreSort_mode_iff_congr (db : DB) (userId : Nat) (o o2 : ListOptions)
    (ht : o.tags = o2.tags) (hc : o.completed = o2.completed)
    (hm : (effectiveMatchMode o.tagMatchMode = "all") ↔
      (effectiveMatchMode o2.tagMatchMode = "all")) :
    pageRowsPreSort db userId o = pageRowsPreSort db userId o2 := by
  unfold pageRowsPreSort
  rw [ht, hc]
  by_cases hreq : tagNamesToFilterOf o2.tags = []
  · rw [if_pos hreq, if_pos hreq]
  · rw [if_neg hreq, if_neg hreq]
    by_cases hall : effectiveMatchMode o2.tagMatchMode = "all"
    · rw [if_pos hall, if_pos (hm.mpr hall)]
    · rw [if_neg hall, if_neg (fun hx => hall (hm.mp hx))]

theorem getAllTasks_congr (db : DB) (userId : Nat) (o o2 : ListOptions)
    (ht : o.tags = o2.tags) (hc : o.completed = o2.completed)
    (hm : effectiveMatchMode o.tagMatchMode = effectiveMatchMode o2.tagMatchMode)
    (hs : o.sortBy = o2.sortBy) (hp : o.page = o2.page) (hl : o.limit = o2.limit) :
    getAllTasks db userId o = getAllTasks db userId o2 := by
  unfold getAllTasks
  rw [pageRowsPreSort_congr db userId o o2 ht hc hm, countTotal_congr db userId o o2 ht hc hm, hs, hp, hl]

/-- C3 (amended): a list request with tagMatchMode absent behaves exactly
as tagMatchMode "all" for both the returned page and the total; but a
present value other than "all" or "any" does not default to "all": the
request validation layer rejects it with a 400 validation error, and the
service itself treats every non-falsy value other than "all" like "any"
when building the page rows. -/
theorem tagMatchMode_default_behaviour (db : DB) (userId : Nat) (o : ListOptions)
    (v : String) (h1 : ¬ jsTrim v = "all") (h2 : ¬ jsTrim v = "any")
    (h3 : ¬ v = "") :
    getAllTasks db userId { o with tagMatchMode := none } =
      getAllTasks db userId { o with tagMatchMode := some "all" } ∧
    tagMatchModeValid (some v) = false ∧
    pageRowsPreSort db userId { o with tagMatchMode := some v } =
      pageRowsPreSort db userId { o with tagMatchMode := some "any" } := by
  refine ⟨getAllTasks_congr db userId _ _ rfl rfl rfl rfl rfl rfl, ?_, ?_⟩
  · unfold tagMatchModeValid
    simp [h1, h2]
  · have hv : effectiveMatchMode (some v) = v := by
      unfold effectiveMatchMode
      simp [h3]
    have hvall : ¬ v = "all" := by
      intro he
      exact h1 (by rw [he]; decide)
    refine pageRowsPreSort_mode_iff_congr db userId _ _ rfl rfl ?_
    show (effectiveMatchMode (some v) = "all") ↔ (effectiveMatchMode (some "any") = "all")
    rw [hv]
    constructor
    · intro hx; exact absurd hx hvall
    · intro hx; exact absurd hx (by decide)

/-- Witness for the C3 theorem on the concrete store. -/
theorem tagMatchMode_default_behaviour_witness :
    (¬ jsTrim "foo" = "all" ∧ ¬ jsTrim "foo" = "any" ∧ ¬ "foo" = "") ∧
    (getAllTasks exDb 7 { tags := some "a,b", tagMatchMode := none } =
        getAllTasks exDb 7 { tags := some "a,b", tagMatchMode := some "all" } ∧
      tagMatchModeValid (some "foo") = false ∧
      pageRowsPreSort exDb 7 { tags := some "a,b", tagMatchMode := some "foo" } =
        pageRowsPreSort exDb 7 { tags := some "a,b", tagMatchMode := some "any" }) :=
  ⟨⟨by decide, by decide, by decide⟩,
   tagMatchMode_default_behaviour exDb 7 { tags := some "a,b" } "foo"
     (by decide) (by decide) (by decide)⟩

/-- C3 counterexample: with tasks tagged a and b, the invalid mode "foo"
matches task lists like "any" would, so the result differs from the
"all" behaviour the claim predicts for invalid values. -/
theorem tagMatchMode_invalid_counterexample :
    ¬ getAllTasks exDb 7 { tags := some "a,b", tagMatchMode := some "foo" } =
        getAllTasks exDb 7 { tags := some "a,b", tagMatchMode := some "all" } := by
  decide

/-! ### Claim theorems: unrecognized sort fields -/

/-- C8 (amended): a list request whose sortBy field segment is not one of
createdAt, updatedAt, title, completed never errors, but it appends no
ORDER BY clause at all: the rows keep their pre-sort scan order instead
of falling back to the default createdAt DESC ordering. -/
theorem sortBy_unrecognized_no_order (s : String) (h0 : ¬ s = "")
    (hf : ¬ (splitChar '_' s).headD "" ∈ allowedSortFields) :
    ∀ rows : List Task, orderedRows (some s) rows = rows := by
  intro rows
  show (if s = "" then sortByLe (fun a b => b.createdAt ≤ a.createdAt) rows
    else if (splitChar '_' s).headD "" ∈ allowedSortFields then
      (if sortDescRequested s then
        sortByLe (fun a b => fieldLe ((splitChar '_' s).headD "") b a) rows
      else sortByLe (fieldLe ((splitChar '_' s).headD "")) rows)
    else rows) = rows
  rw [if_neg h0, if_neg hf]

/-- Witness for the C8 theorem at a concrete unrecognized sort field. -/
theorem sortBy_unrecognized_no_order_witness :
    (¬ "CREATEDAT_DESC" = "" ∧
      ¬ (splitChar '_' "CREATEDAT_DESC").headD "" ∈ allowedSortFields) ∧
    orderedRows (some "CREATEDAT_DESC") [exTask1, exTask2] = [exTask1, exTask2] :=
  ⟨⟨by decide, by decide⟩,
   sortBy_unrecognized_no_order "CREATEDAT_DESC" (by decide) (by decide)
     [exTask1, exTask2]⟩

/-- C8 counterexample: "CREATEDAT_DESC" passes the case-insensitive
request validation, yet its field fails the case-sensitive whitelist in
the service, so the page keeps the scan order [1, 2, 3]; the same request
without sortBy applies the default createdAt DESC order [3, 2, 1].  The
claimed fallback to the default order does not happen. -/
theorem sortBy_unrecognized_counterexample :
    sortByValid "CREATEDAT_DESC" = true ∧
    (getAllTasks exDb 7 { sortBy := some "CREATEDAT_DESC" }).tasks.map
        (fun x => x.task.id) = [1, 2, 3] ∧
    (getAllTasks exDb 7 {}).tasks.map (fun x => x.task.id) = [3, 2, 1] ∧
    ¬ (getAllTasks exDb 7 { sortBy := some "CREATEDAT_DESC" }).tasks =
        (getAllTasks exDb 7 {}).tasks := by
  decide

/-! ### Support lemmas for the query engine -/

theorem insertLe_length (le : Task → Task → Bool) (a : Task) (l : List Task) :
    (insertLe le a l).length = l.length + 1 := by
  induction l with
  | nil => rfl
  | cons b l ih =>
      unfold insertLe
      by_cases h : le a b
      · rw [if_pos h]
        rfl
      · rw [if_neg h]
        show (insertLe le a l).length + 1 = (b :: l).length + 1
        rw [ih]
        rfl

theorem sortByLe_length (le : Task → Task → Bool) (l : List Task) :
    (sortByLe le l).length = l.length := by
  induction l with
  | nil => rfl
  | cons a l ih =>
      unfold sortByLe
      rw [insertLe_length, ih]
      rfl

theorem orderedRows_length (sortBy : Option String) (rows : List Task) :
    (orderedRows sortBy rows).length = rows.length := by
  unfold orderedRows
  rcases sortBy with _ | s
  · exact sortByLe_length _ _
  · show (if s = "" then sortByLe (fun a b => b.createdAt ≤ a.createdAt) rows
      else if (splitChar '_' s).headD "" ∈ allowedSortFields then
        (if sortDescRequested s then
          sortByLe (fun a b => fieldLe ((splitChar '_' s).headD "") b a) rows
        else sortByLe (fieldLe ((splitChar '_' s).headD "")) rows)
      else rows).length = rows.length
    by_cases h0 : s = ""
    · rw [if_pos h0]; exact sortByLe_length _ _
    · rw [if_neg h0]
      by_cases h1 : (splitChar '_' s).headD "" ∈ allowedSortFields
      · rw [if_pos h1]
        by_cases h2 : sortDescRequested s
        · rw [if_pos h2]; exact sortByLe_length _ _
        · rw [if_neg h2]; exact sortByLe_length _ _
      · rw [if_neg h1]

theorem mem_joinRows {db : DB} {userId : Nat} {copt : Option String}
    {req : List String} {r : Task × Tg} :
    r ∈ joinRows db userId copt req ↔
      r.1 ∈ db.tasks ∧ r.2 ∈ db.tags ∧ (r.1.id, r.2.id) ∈ db.taskTags ∧
      r.1.userId = userId ∧ sqlLower r.2.name ∈ req.map sqlLower ∧
      completedOk copt r.1 = true := by
  unfold joinRows
  rw [List.mem_filter]
  simp only [List.mem_flatMap, List.mem_filterMap]
  constructor
  · rintro ⟨⟨t, ht, a, ha, ta, hta, hcond⟩, hwhere⟩
    split at hcond
    case isTrue hc =>
      cases hcond
      simp only [decide_eq_true_eq] at hwhere
      exact ⟨ht, hta, by rw [← hc.1, ← hc.2, Prod.mk.eta]; exact ha,
        hwhere.1, hwhere.2.1, hwhere.2.2⟩
    case isFalse hc => cases hcond
  · rintro ⟨ht, hta, ha, huser, hname, hcomp⟩
    refine ⟨⟨r.1, ht, (r.1.id, r.2.id), ha, r.2, hta, ?_⟩, ?_⟩
    · rw [if_pos ⟨rfl, rfl⟩, Prod.mk.eta]
    · simp [huser, hname, hcomp]

theorem fst_mem_of_mem_joinRows {db : DB} {userId : Nat} {copt : Option String}
    {req : List String} {r : Task × Tg} (h : r ∈ joinRows db userId copt req) :
    r.1 ∈ db.tasks :=
  (mem_joinRows.mp h).1

theorem dedup_map_of_injOn {α β : Type} [DecidableEq α] [DecidableEq β]
    (f : α → β) (l : List α)
    (hinj : ∀ x ∈ l, ∀ y ∈ l, f x = f y → x = y) :
    (l.map f).dedup = l.dedup.map f := by
  induction l with
  | nil => rfl
  | cons a l ih =>
      have hinj2 : ∀ x ∈ l, ∀ y ∈ l, f x = f y → x = y := fun x hx y hy =>
        hinj x (List.mem_cons_of_mem a hx) y (List.mem_cons_of_mem a hy)
      rw [List.map_cons]
      by_cases h : a ∈ l
      · rw [List.dedup_cons_of_mem h,
          List.dedup_cons_of_mem (List.mem_map_of_mem f h), ih hinj2]
      · have hnf : f a ∉ l.map f := by
          intro hmem
          rw [List.mem_map] at hmem
          obtain ⟨x, hx, hfx⟩ := hmem
          have hxa : x = a :=
            hinj x (List.mem_cons_of_mem a hx) a (List.mem_cons_self a l) hfx
          exact h (hxa ▸ hx)
        rw [List.dedup_cons_of_not_mem h, List.dedup_cons_of_not_mem hnf,
          List.map_cons, ih hinj2]

theorem task_id_injOn {db : DB} (hWF : WF db) :
    ∀ x ∈ db.tasks, ∀ y ∈ db.tasks, x.id = y.id → x = y := by
  intro x hx y hy hxy
  exact List.inj_on_of_nodup_map hWF.1 hx hy hxy

/-- The count query agrees with the page query on every documented filter
combination: the total is the number of pre-pagination page rows. -/
theorem countTotal_eq_length (db : DB) (userId : Nat) (o : ListOptions)
    (hWF : WF db)
    (hmode : o.tagMatchMode = none ∨ o.tagMatchMode = some "all" ∨
      o.tagMatchMode = some "any") :
    countTotal db userId o = (pageRowsPreSort db userId o).length := by
  unfold countTotal pageRowsPreSort
  by_cases hreq : tagNamesToFilterOf o.tags = []
  · rw [if_pos hreq, if_pos hreq]
    have hnd : (db.tasks.filter
        (fun t => t.userId = userId ∧ completedOk o.completed t)).Nodup :=
      List.Nodup.filter _ (List.Nodup.of_map Task.id hWF.1)
    rw [List.dedup_eq_self.mpr hnd]
  · rw [if_neg hreq, if_neg hreq]
    have hfstmem : ∀ t ∈ (joinRows db userId o.completed
        (tagNamesToFilterOf o.tags)).map Prod.fst, t ∈ db.tasks := by
      intro t ht
      rw [List.mem_map] at ht
      obtain ⟨r, hr, hrt⟩ := ht
      rw [← hrt]
      exact fst_mem_of_mem_joinRows hr
    have hinj : ∀ x ∈ (joinRows db userId o.completed
          (tagNamesToFilterOf o.tags)).map Prod.fst,
        ∀ y ∈ (joinRows db userId o.completed
          (tagNamesToFilterOf o.tags)).map Prod.fst,
        x.id = y.id → x = y := fun x hx y hy hxy =>
      task_id_injOn hWF x (hfstmem x hx) y (hfstmem y hy) hxy
    have hmapid : (joinRows db userId o.completed
        (tagNamesToFilterOf o.tags)).map (fun r => r.1.id) =
        ((joinRows db userId o.completed
          (tagNamesToFilterOf o.tags)).map Prod.fst).map Task.id := by
      rw [List.map_map]
      rfl
    by_cases hall : effectiveMatchMode o.tagMatchMode = "all"
    · rw [if_pos hall, if_pos hall]
      rw [hmapid, dedup_map_of_injOn Task.id _ hinj, List.filter_map,
        List.length_map]
      congr 1
      apply List.filter_congr
      intro t ht
      have htmem : t ∈ (joinRows db userId o.completed
          (tagNamesToFilterOf o.tags)).map Prod.fst := by
        rw [← List.mem_dedup]
        exact ht
      have hrowfilter : (joinRows db userId o.completed
            (tagNamesToFilterOf o.tags)).filter (fun r => r.1.id = t.id) =
          (joinRows db userId o.completed
            (tagNamesToFilterOf o.tags)).filter (fun r => r.1 = t) := by
        apply List.filter_congr
        intro r hr
        have hr1 : r.1 ∈ db.tasks := fst_mem_of_mem_joinRows hr
        by_cases he : r.1 = t
        · simp [he]
        · have hne : ¬ r.1.id = t.id := fun hid =>
            he (task_id_injOn hWF r.1 hr1 t (hfstmem t htmem) hid)
          simp [he, hne]
      show decide (distinctNameCountById _ t.id = _) =
        decide (distinctNameCount _ t = _)
      unfold distinctNameCountById distinctNameCount
      rw [hrowfilter]
    · have hany : effectiveMatchMode o.tagMatchMode = "any" := by
        rcases hmode with h | h | h
        · rw [h] at hall; exact absurd rfl hall
        · rw [h] at hall; exact absurd rfl hall
        · rw [h]; rfl
      rw [if_neg hall, if_neg hall, if_pos hany]
      rw [hmapid, dedup_map_of_injOn Task.id _ hinj, List.length_map]

theorem parseOr_pos (x : Option Nat) {d : Nat} (hd : 0 < d) :
    0 < parseOr x d := by
  rcases x with _ | v
  · exact hd
  · show 0 < if v = 0 then d else v
    by_cases hv : v = 0
    · rw [if_pos hv]; exact hd
    · rw [if_neg hv]; omega

theorem length_pageSlice (page limit : Nat) (rows : List Task) :
    (pageSlice page limit rows).length =
      min limit (rows.length - (page - 1) * limit) := by
  unfold pageSlice
  rw [List.length_take, List.length_drop]

theorem ceil_div_step {k : Nat} (hk : 0 < k) {n : Nat} (hn : 0 < n) :
    (n + k - 1) / k = ((n - k) + k - 1) / k + 1 := by
  have h1 : n + k - 1 = (n - 1) + k := by omega
  rw [h1, Nat.add_div_right _ hk]
  rcases le_or_lt n k with h | h
  · have hm : n - k = 0 := by omega
    rw [hm]
    have hz1 : (0 + k - 1) / k = 0 := Nat.div_eq_of_lt (by omega)
    have hz2 : (n - 1) / k = 0 := Nat.div_eq_of_lt (by omega)
    rw [hz1, hz2]
  · have h2 : (n - k) + k - 1 = (n - k - 1) + k := by omega
    rw [h2, Nat.add_div_right _ hk]
    have h3 : (n - 1) / k = ((n - 1) - k) / k + 1 :=
      Nat.div_eq_sub_div hk (by omega)
    rw [h3]
    have h4 : n - 1 - k = n - k - 1 := by omega
    rw [h4]

theorem sum_min_chunks {k : Nat} (hk : 0 < k) : ∀ n : Nat,
    ((List.range ((n + k - 1) / k)).map (fun i => min k (n - i * k))).sum = n := by
  intro n
  induction n using Nat.strong_induction_on with
  | _ n ih =>
    rcases Nat.eq_zero_or_pos n with hn | hn
    · subst hn
      have h0 : (0 + k - 1) / k = 0 := Nat.div_eq_of_lt (by omega)
      rw [h0]
      rfl
    · rw [ceil_div_step hk hn, List.range_succ_eq_map, List.map_cons,
        List.sum_cons, List.map_map]
      have htail : (List.range ((n - k + k - 1) / k)).map
            ((fun i => min k (n - i * k)) ∘ Nat.succ) =
          (List.range ((n - k + k - 1) / k)).map
            (fun i => min k ((n - k) - i * k)) := by
        apply List.map_congr_left
        intro i _
        show min k (n - Nat.succ i * k) = min k ((n - k) - i * k)
        have harg : n - Nat.succ i * k = n - k - i * k := by
          rw [Nat.succ_mul]
          generalize i * k = m
          omega
        rw [harg]
      rw [htail, ih (n - k) (by omega)]
      simp only [Nat.zero_mul, Nat.sub_zero]
      rcases le_total n k with h | h
      · rw [min_eq_right h]; omega
      · rw [min_eq_left h]; omega

/-! ### Claim theorems: count consistency -/

/-- C2: for every user, every documented filter combination (completed,
tags, tagMatchMode absent or one of "all"/"any") and every page size,
the total is computed by the same predicate logic as the page query
(it equals the number of pre-pagination page rows), and the page lengths
over pages 1..totalPages sum to exactly that total. -/
theorem count_consistency (db : DB) (userId : Nat) (o : ListOptions)
    (hWF : WF db)
    (hmode : o.tagMatchMode = none ∨ o.tagMatchMode = some "all" ∨
      o.tagMatchMode = some "any") :
    countTotal db userId o = (pageRowsPreSort db userId o).length ∧
    ((List.range (getAllTasks db userId o).totalPages).map
        (fun i => (getAllTasks db userId { o with page := some (i + 1) }).tasks.length)).sum =
      (getAllTasks db userId o).total := by
  have hcount := countTotal_eq_length db userId o hWF hmode
  refine ⟨hcount, ?_⟩
  have hlim : 0 < parseOr o.limit 10 := parseOr_pos o.limit (by omega)
  have hterm : ∀ i : Nat,
      (getAllTasks db userId { o with page := some (i + 1) }).tasks.length =
      min (parseOr o.limit 10)
        ((pageRowsPreSort db userId o).length - i * parseOr o.limit 10) := by
    intro i
    show ((pageSlice (parseOr (some (i + 1)) 1) (parseOr o.limit 10)
      (orderedRows o.sortBy
        (pageRowsPreSort db userId { o with page := some (i + 1) }))).map
      (fun t => TaskWithTags.mk t (getTagsForTask db t.id))).length =
      min (parseOr o.limit 10)
        ((pageRowsPreSort db userId o).length - i * parseOr o.limit 10)
    rw [List.length_map,
      pageRowsPreSort_congr db userId { o with page := some (i + 1) } o rfl rfl rfl,
      length_pageSlice, orderedRows_length]
    have hpage : parseOr (some (i + 1)) 1 = i + 1 := by
      show (if i + 1 = 0 then 1 else i + 1) = i + 1
      rw [if_neg (Nat.succ_ne_zero i)]
    rw [hpage]
    simp
  have htp : (getAllTasks db userId o).totalPages =
      ((pageRowsPreSort db userId o).length + parseOr o.limit 10 - 1) /
        parseOr o.limit 10 := by
    show (countTotal db userId o + parseOr o.limit 10 - 1) / parseOr o.limit 10 = _
    rw [hcount]
  have htotal : (getAllTasks db userId o).total = (pageRowsPreSort db userId o).length := by
    show countTotal db userId o = _
    exact hcount
  rw [htp, htotal, List.map_congr_left (fun i _ => hterm i)]
  exact sum_min_chunks hlim (pageRowsPreSort db userId o).length

/-- Witness for the C2 theorem on the concrete store with page size 2 in
"any" mode (total 3, two pages of sizes 2 and 1). -/
theorem count_consistency_witness :
    (WF exDb ∧
      ({ tags := some "a,b", tagMatchMode := some "any", limit := some 2 } :
        ListOptions).tagMatchMode = some "any") ∧
    (countTotal exDb 7 { tags := some "a,b", tagMatchMode := some "any", limit := some 2 } =
      (pageRowsPreSort exDb 7
        { tags := some "a,b", tagMatchMode := some "any", limit := some 2 }).length ∧
    ((List.range (getAllTasks exDb 7
        { tags := some "a,b", tagMatchMode := some "any", limit := some 2 }).totalPages).map
        (fun i => (getAllTasks exDb 7
          { tags := some "a,b", tagMatchMode := some "any", limit := some 2,
            page := some (i + 1) }).tasks.length)).sum =
      (getAllTasks exDb 7
        { tags := some "a,b", tagMatchMode := some "any", limit := some 2 }).total) :=
  ⟨⟨by decide, rfl⟩,
   count_consistency exDb 7
     { tags := some "a,b", tagMatchMode := some "any", limit := some 2 }
     (by decide) (Or.inr (Or.inr rfl))⟩

/-! ### Support lemmas for the all-mode tag filter -/

theorem tagFilter_lowered (tags : Option String) :
    ∀ n ∈ tagNamesToFilterOf tags, sqlLower n = n := by
  intro n hn
  rcases tags with _ | s
  · simp [tagNamesToFilterOf] at hn
  · simp only [tagNamesToFilterOf] at hn
    by_cases hs : s = ""
    · rw [if_pos hs] at hn; simp at hn
    · rw [if_neg hs] at hn
      rw [List.mem_filter, List.mem_map] at hn
      obtain ⟨⟨x, _, hx⟩, _⟩ := hn
      rw [← hx]
      exact sqlLower_canonName x

theorem tagFilter_map_lower (tags : Option String) :
    (tagNamesToFilterOf tags).map sqlLower = tagNamesToFilterOf tags := by
  rw [List.map_congr_left (tagFilter_lowered tags), List.map_id']

theorem mem_fst_joinRows_iff {db : DB} {userId : Nat} {copt : Option String}
    {req : List String} {t : Task} :
    t ∈ (joinRows db userId copt req).map Prod.fst ↔
      t ∈ db.tasks ∧ t.userId = userId ∧ completedOk copt t = true ∧
        ∃ ta ∈ db.tags, (t.id, ta.id) ∈ db.taskTags ∧
          sqlLower ta.name ∈ req.map sqlLower := by
  rw [List.mem_map]
  constructor
  · rintro ⟨r, hr, hrt⟩
    have hj := mem_joinRows.mp hr
    rw [← hrt]
    exact ⟨hj.1, hj.2.2.2.1, hj.2.2.2.2.2, r.2, hj.2.1, hj.2.2.1, hj.2.2.2.2.1⟩
  · rintro ⟨ht, hu, hc, ta, hta, hassoc, hname⟩
    exact ⟨(t, ta), mem_joinRows.mpr ⟨ht, hta, hassoc, hu, hname, hc⟩, rfl⟩

theorem nameList_subset_req {db : DB} {userId : Nat} {copt : Option String}
    {req : List String} (p : Task × Tg → Bool) :
    ∀ x ∈ ((joinRows db userId copt req).filter p).map
      (fun r => sqlLower r.2.name), x ∈ req.map sqlLower := by
  intro x hx
  rw [List.mem_map] at hx
  obtain ⟨r, hr, hxeq⟩ := hx
  rw [List.mem_filter] at hr
  have hj := mem_joinRows.mp hr.1
  rw [← hxeq]
  exact hj.2.2.2.2.1

theorem mem_nameList_iff {db : DB} {userId : Nat} {copt : Option String}
    {req : List String} {t : Task} {x : String}
    (ht : t ∈ db.tasks) (hu : t.userId = userId)
    (hc : completedOk copt t = true) :
    x ∈ ((joinRows db userId copt req).filter (fun r => r.1 = t)).map
        (fun r => sqlLower r.2.name) ↔
      x ∈ req.map sqlLower ∧ ∃ ta ∈ db.tags,
        (t.id, ta.id) ∈ db.taskTags ∧ sqlLower ta.name = x := by
  rw [List.mem_map]
  constructor
  · rintro ⟨r, hr, hxeq⟩
    rw [List.mem_filter] at hr
    obtain ⟨hrj, hrt⟩ := hr
    have hj := mem_joinRows.mp hrj
    have hrteq : r.1 = t := by simpa using hrt
    refine ⟨by rw [← hxeq]; exact hj.2.2.2.2.1, r.2, hj.2.1, ?_, hxeq⟩
    rw [← hrteq]
    exact hj.2.2.1
  · rintro ⟨hxreq, ta, hta, hassoc, hname⟩
    refine ⟨(t, ta), ?_, hname⟩
    rw [List.mem_filter]
    refine ⟨mem_joinRows.mpr ⟨ht, hta, hassoc, hu, ?_, hc⟩, by simp⟩
    rw [hname]
    exact hxreq

theorem filtered_distinct_names_le (db : DB) (userId : Nat) (copt : Option String)
    (req : List String) (p : Task × Tg → Bool)
    (hlow : ∀ n ∈ req, sqlLower n = n) :
    ((((joinRows db userId copt req).filter p).map
      (fun r => sqlLower r.2.name)).dedup).length ≤ req.dedup.length := by
  rw [← List.card_toFinset, ← List.card_toFinset]
  apply Finset.card_le_card
  intro x hx
  rw [List.mem_toFinset] at hx ⊢
  have hmem := nameList_subset_req p x hx
  rw [List.map_congr_left hlow, List.map_id'] at hmem
  exact hmem

theorem dedup_length_lt_of_not_nodup {α : Type} [DecidableEq α] {l : List α}
    (h : ¬ l.Nodup) : l.dedup.length < l.length := by
  have hsub : l.dedup.Sublist l := List.dedup_sublist l
  have hle : l.dedup.length ≤ l.length := hsub.length_le
  rcases Nat.lt_or_ge l.dedup.length l.length with hlt | hge
  · exact hlt
  · have heq : l.dedup = l := hsub.eq_of_length (Nat.le_antisymm hle hge)
    exact absurd (List.dedup_eq_self.mp heq) h

theorem cnt_eq_len_iff {db : DB} {userId : Nat} {copt : Option String}
    {req : List String} {t : Task}
    (ht : t ∈ db.tasks) (hu : t.userId = userId)
    (hc : completedOk copt t = true)
    (hlow : ∀ n ∈ req, sqlLower n = n) (hnd : req.Nodup) :
    distinctNameCount (joinRows db userId copt req) t = req.length ↔
      ∀ n ∈ req, ∃ ta ∈ db.tags, (t.id, ta.id) ∈ db.taskTags ∧
        sqlLower ta.name = n := by
  have hmaplow : req.map sqlLower = req := by
    rw [List.map_congr_left hlow, List.map_id']
  have hcnt : distinctNameCount (joinRows db userId copt req) t =
      ((((joinRows db userId copt req).filter (fun r => r.1 = t)).map
        (fun r => sqlLower r.2.name)).toFinset).card := by
    unfold distinctNameCount
    rw [List.card_toFinset]
  have hsub : (((joinRows db userId copt req).filter (fun r => r.1 = t)).map
      (fun r => sqlLower r.2.name)).toFinset ⊆ req.toFinset := by
    intro x hx
    rw [List.mem_toFinset] at hx ⊢
    have hmem := nameList_subset_req (fun r => r.1 = t) x hx
    rw [hmaplow] at hmem
    exact hmem
  have hcard : req.toFinset.card = req.length := List.toFinset_card_of_nodup hnd
  rw [hcnt]
  constructor
  · intro hlen n hn
    have hfeq : (((joinRows db userId copt req).filter (fun r => r.1 = t)).map
        (fun r => sqlLower r.2.name)).toFinset = req.toFinset :=
      Finset.eq_of_subset_of_card_le hsub (by rw [hcard, hlen])
    have hnS : n ∈ (((joinRows db userId copt req).filter (fun r => r.1 = t)).map
        (fun r => sqlLower r.2.name)) := by
      rw [← List.mem_toFinset, hfeq, List.mem_toFinset]
      exact hn
    exact ((mem_nameList_iff ht hu hc).mp hnS).2
  · intro hsup
    have hfeq : (((joinRows db userId copt req).filter (fun r => r.1 = t)).map
        (fun r => sqlLower r.2.name)).toFinset = req.toFinset := by
      apply Finset.Subset.antisymm hsub
      intro n hn
      rw [List.mem_toFinset] at hn ⊢
      rw [mem_nameList_iff ht hu hc]
      exact ⟨by rw [hmaplow]; exact hn, hsup n hn⟩
    rw [hfeq, hcard]

/-! ### Claim theorems: all-mode superset semantics -/

/-- C1 (amended): the "all" match mode canonicalizes the requested
tag-name list (trim, lowercase, drop empties) but does not deduplicate it
before computing the required count; the HAVING clause compares the count
of distinct matching canonical names against the raw list length.  For a
duplicate-free canonicalized list this is exactly the superset semantics:
a candidate task qualifies exactly when its attached canonical tag-name
set contains every requested canonical name.  When the canonicalized list
repeats a canonical name, the required count exceeds the number of
distinct names, so the page is empty and the total is 0 — not the result
of the deduplicated list. -/
theorem allMode_superset_characterization (db : DB) (userId : Nat)
    (o : ListOptions)
    (hreq : ¬ tagNamesToFilterOf o.tags = [])
    (hmode : effectiveMatchMode o.tagMatchMode = "all") :
    ((tagNamesToFilterOf o.tags).Nodup →
      ∀ t : Task, t ∈ pageRowsPreSort db userId o ↔
        (t ∈ db.tasks ∧ t.userId = userId ∧ completedOk o.completed t = true ∧
          ∀ n ∈ tagNamesToFilterOf o.tags, ∃ ta ∈ db.tags,
            (t.id, ta.id) ∈ db.taskTags ∧ sqlLower ta.name = n)) ∧
    (¬ (tagNamesToFilterOf o.tags).Nodup →
      pageRowsPreSort db userId o = [] ∧ countTotal db userId o = 0) := by
  have hlow := tagFilter_lowered o.tags
  have hpage : pageRowsPreSort db userId o =
      (((joinRows db userId o.completed (tagNamesToFilterOf o.tags)).map
        Prod.fst).dedup).filter
        (fun t =>
          distinctNameCount (joinRows db userId o.completed
            (tagNamesToFilterOf o.tags)) t = (tagNamesToFilterOf o.tags).length) := by
    unfold pageRowsPreSort
    rw [if_neg hreq, if_pos hmode]
  constructor
  · intro hnd t
    rw [hpage, List.mem_filter, List.mem_dedup, mem_fst_joinRows_iff]
    constructor
    · rintro ⟨⟨ht, hu, hc, _⟩, hcnteq⟩
      refine ⟨ht, hu, hc, ?_⟩
      rw [← cnt_eq_len_iff ht hu hc hlow hnd]
      simpa using hcnteq
    · rintro ⟨ht, hu, hc, hsup⟩
      have hcnteq := (cnt_eq_len_iff ht hu hc hlow hnd).mpr hsup
      obtain ⟨n0, hn0⟩ := List.exists_mem_of_ne_nil _ hreq
      obtain ⟨ta, hta, hassoc, hname⟩ := hsup n0 hn0
      refine ⟨⟨ht, hu, hc, ta, hta, hassoc, ?_⟩, by simpa using hcnteq⟩
      rw [hname]
      have hmaplow : (tagNamesToFilterOf o.tags).map sqlLower =
          tagNamesToFilterOf o.tags := tagFilter_map_lower o.tags
      rw [hmaplow]
      exact hn0
  · intro hnd
    have hlt : (tagNamesToFilterOf o.tags).dedup.length <
        (tagNamesToFilterOf o.tags).length := dedup_length_lt_of_not_nodup hnd
    constructor
    · rw [hpage, List.filter_eq_nil_iff]
      intro t _
      simp only [decide_eq_true_eq]
      intro heq
      have hle : distinctNameCount (joinRows db userId o.completed
          (tagNamesToFilterOf o.tags)) t ≤
          (tagNamesToFilterOf o.tags).dedup.length := by
        unfold distinctNameCount
        exact filtered_distinct_names_le db userId o.completed
          (tagNamesToFilterOf o.tags) (fun r => r.1 = t) hlow
      omega
    · have hcount : countTotal db userId o =
          ((((joinRows db userId o.completed (tagNamesToFilterOf o.tags)).map
            (fun r => r.1.id)).dedup).filter
            (fun i => distinctNameCountById (joinRows db userId o.completed
              (tagNamesToFilterOf o.tags)) i =
              (tagNamesToFilterOf o.tags).length)).length := by
        unfold countTotal
        rw [if_neg hreq, if_pos hmode]
      rw [hcount, List.length_eq_zero, List.filter_eq_nil_iff]
      intro i _
      simp only [decide_eq_true_eq]
      intro heq
      have hle : distinctNameCountById (joinRows db userId o.completed
          (tagNamesToFilterOf o.tags)) i ≤
          (tagNamesToFilterOf o.tags).dedup.length := by
        unfold distinctNameCountById
        exact filtered_distinct_names_le db userId o.completed
          (tagNamesToFilterOf o.tags) (fun r => r.1.id = i) hlow
      omega

/-- Witness for the C1 theorem: the duplicate-free filter a,b on the
concrete store selects exactly the task carrying both tags. -/
theorem allMode_superset_characterization_witness :
    (¬ tagNamesToFilterOf (some "a,b") = [] ∧
      effectiveMatchMode (some "all") = "all") ∧
    (((tagNamesToFilterOf (some "a,b")).Nodup →
      ∀ t : Task, t ∈ pageRowsPreSort exDb 7
          { tags := some "a,b", tagMatchMode := some "all" } ↔
        (t ∈ exDb.tasks ∧ t.userId = 7 ∧ completedOk none t = true ∧
          ∀ n ∈ tagNamesToFilterOf (some "a,b"), ∃ ta ∈ exDb.tags,
            (t.id, ta.id) ∈ exDb.taskTags ∧ sqlLower ta.name = n)) ∧
    (¬ (tagNamesToFilterOf (some "a,b")).Nodup →
      pageRowsPreSort exDb 7 { tags := some "a,b", tagMatchMode := some "all" } = [] ∧
      countTotal exDb 7 { tags := some "a,b", tagMatchMode := some "all" } = 0)) :=
  ⟨⟨by decide, by decide⟩,
   allMode_superset_characterization exDb 7
     { tags := some "a,b", tagMatchMode := some "all" } (by decide) (by decide)⟩

/-- C1 counterexample: the filter "a,a" repeats one canonical name; with
match mode "all" the code requires two distinct matching names, so it
returns no items and total 0, while the deduplicated filter "a" returns
the two tasks tagged a — the claim that both requests return the same
items and total is false. -/
theorem allMode_duplicate_filter_counterexample :
    (getAllTasks exDb 7 { tags := some "a,a", tagMatchMode := some "all" }).total = 0 ∧
    (getAllTasks exDb 7 { tags := some "a,a", tagMatchMode := some "all" }).tasks = [] ∧
    (getAllTasks exDb 7 { tags := some "a", tagMatchMode := some "all" }).total = 2 ∧
    ¬ (getAllTasks exDb 7 { tags := some "a,a", tagMatchMode := some "all" }).tasks =
        (getAllTasks exDb 7 { tags := some "a", tagMatchMode := some "all" }).tasks := by
  decide

/-! ### Support lemmas for the tag-replacement branch of updateTask -/

theorem resolveStep_eq (acc : List Tg) (db0 : DB) (n : String) :
    resolveStep (acc, db0) n =
      match findOrCreateTag db0 n with
      | (some tg, db1) => (acc ++ [tg], db1)
      | (none, db1) => (acc, db1) := rfl

theorem resolveStep_taskTags (acc : List Tg × DB) (n : String) :
    (resolveStep acc n).2.taskTags = acc.2.taskTags := by
  unfold resolveStep
  rcases hr : findOrCreateTag acc.2 n with ⟨otg, db2⟩
  have h := findOrCreateTag_taskTags acc.2 n
  rw [hr] at h
  cases otg <;> simpa using h

theorem foldResolve_taskTags (names : List String) (acc : List Tg × DB) :
    (names.foldl resolveStep acc).2.taskTags = acc.2.taskTags := by
  induction names generalizing acc with
  | nil => rfl
  | cons n ns ih => rw [List.foldl_cons, ih, resolveStep_taskTags]

theorem resolveStep_tags_grow (acc : List Tg × DB) (n : String) :
    acc.2.tags <+: (resolveStep acc n).2.tags := by
  unfold resolveStep
  rcases hr : findOrCreateTag acc.2 n with ⟨otg, db2⟩
  have h := findOrCreateTag_tags_grow acc.2 n
  rw [hr] at h
  cases otg <;> simpa using h

theorem foldResolve_tags_grow (names : List String) (acc : List Tg × DB) :
    acc.2.tags <+: (names.foldl resolveStep acc).2.tags := by
  induction names generalizing acc with
  | nil => exact List.prefix_refl _
  | cons n ns ih =>
      rw [List.foldl_cons]
      exact List.IsPrefix.trans (resolveStep_tags_grow acc n) (ih _)

theorem resolveStep_WF (acc : List Tg × DB) (n : String) (h : WF acc.2) :
    WF (resolveStep acc n).2 := by
  unfold resolveStep
  rcases hr : findOrCreateTag acc.2 n with ⟨otg, db2⟩
  have hwf := findOrCreateTag_WF n h
  rw [hr] at hwf
  cases otg <;> simpa using hwf

theorem foldResolve_WF (names : List String) (acc : List Tg × DB) (h : WF acc.2) :
    WF (names.foldl resolveStep acc).2 := by
  induction names generalizing acc with
  | nil => exact h
  | cons n ns ih =>
      rw [List.foldl_cons]
      exact ih _ (resolveStep_WF acc n h)

/-- Specification of the resolution fold: every collected tag stems from
the accumulator or from a requested name with non-empty canonical form
and is backed by a live row of the final tags table; the accumulator is
retained; and every requested name with non-empty canonical form is
collected. -/
theorem foldResolve_spec (names : List String) :
    ∀ (acc : List Tg) (db0 : DB),
      (∀ tg ∈ (names.foldl resolveStep (acc, db0)).1,
        tg ∈ acc ∨ ∃ n ∈ names, tg.name = canonName n ∧ ¬ canonName n = "" ∧
          ∃ ta ∈ (names.foldl resolveStep (acc, db0)).2.tags,
            ta.id = tg.id ∧ sqlLower ta.name = tg.name) ∧
      (∀ tg ∈ acc, tg ∈ (names.foldl resolveStep (acc, db0)).1) ∧
      (∀ n ∈ names, ¬ canonName n = "" →
        ∃ tg ∈ (names.foldl resolveStep (acc, db0)).1, tg.name = canonName n) := by
  induction names with
  | nil =>
      intro acc db0
      refine ⟨fun tg htg => Or.inl htg, fun tg htg => htg, ?_⟩
      intro n hn
      simp at hn
  | cons n ns ih =>
      intro acc db0
      rw [List.foldl_cons, resolveStep_eq]
      rcases hr : findOrCreateTag db0 n with ⟨otg, db1⟩
      cases otg with
      | none =>
          have hcanon : canonName n = "" := by
            rw [← findOrCreateTag_none_iff db0 n, hr]
          obtain ⟨ih1, ih2, ih3⟩ := ih acc db1
          refine ⟨?_, ih2, ?_⟩
          · intro tg htg
            rcases ih1 tg htg with hacc | ⟨m, hm, hrest⟩
            · exact Or.inl hacc
            · exact Or.inr ⟨m, List.mem_cons_of_mem n hm, hrest⟩
          · intro m hm hcm
            rcases List.mem_cons.mp hm with he | hmns
            · rw [he] at hcm
              exact absurd hcanon hcm
            · exact ih3 m hmns hcm
      | some tg0 =>
          have hsome : (findOrCreateTag db0 n).1 = some tg0 := by rw [hr]
          have hspec := findOrCreateTag_some_spec hsome
          have hcanon : ¬ canonName n = "" := by
            intro hc
            have := (findOrCreateTag_none_iff db0 n).mpr hc
            rw [hr] at this
            cases this
          obtain ⟨hname0, ta0, hta0, hid0, hlow0⟩ := hspec
          have hta0db1 : ta0 ∈ db1.tags := by
            have h2 := findOrCreateTag_tags_grow db0 n
            rw [hr] at h2
            rw [hr] at hta0
            exact hta0
          obtain ⟨ih1, ih2, ih3⟩ := ih (acc ++ [tg0]) db1
          have hta0fin : ta0 ∈ (ns.foldl resolveStep (acc ++ [tg0], db1)).2.tags :=
            (foldResolve_tags_grow ns (acc ++ [tg0], db1)).subset hta0db1
          refine ⟨?_, ?_, ?_⟩
          · intro tg htg
            rcases ih1 tg htg with hacc | ⟨m, hm, hrest⟩
            · rcases List.mem_append.mp hacc with h | h
              · exact Or.inl h
              · have htg0 : tg = tg0 := by simpa using h
                refine Or.inr ⟨n, List.mem_cons_self n ns, ?_, hcanon, ta0,
                  hta0fin, ?_, ?_⟩
                · rw [htg0]; exact hname0
                · rw [htg0]; exact hid0
                · rw [htg0, hname0]; exact hlow0
            · exact Or.inr ⟨m, List.mem_cons_of_mem n hm, hrest⟩
          · intro tg htg
            exact ih2 tg (List.mem_append.mpr (Or.inl htg))
          · intro m hm hcm
            rcases List.mem_cons.mp hm with he | hmns
            · refine ⟨tg0, ih2 tg0 (List.mem_append.mpr (Or.inr (by simp))), ?_⟩
              rw [he]
              exact hname0
            · exact ih3 m hmns hcm

theorem mem_insertAssocs (taskId : Nat) (resolved : List Tg) :
    ∀ (tts : List (Nat × Nat)) (a : Nat × Nat),
      a ∈ insertAssocs taskId resolved tts ↔
        a ∈ tts ∨ ∃ tg ∈ resolved, a = (taskId, tg.id) := by
  induction resolved with
  | nil =>
      intro tts a
      unfold insertAssocs
      simp
  | cons tg rs ih =>
      intro tts a
      unfold insertAssocs at ih ⊢
      rw [List.foldl_cons]
      by_cases h : (taskId, tg.id) ∈ tts
      · rw [if_pos h, ih]
        constructor
        · rintro (hm | ⟨tg2, htg2, he⟩)
          · exact Or.inl hm
          · exact Or.inr ⟨tg2, List.mem_cons_of_mem tg htg2, he⟩
        · rintro (hm | ⟨tg2, htg2, he⟩)
          · exact Or.inl hm
          · rcases List.mem_cons.mp htg2 with he2 | hm2
            · subst he2
              rw [he]
              exact Or.inl h
            · exact Or.inr ⟨tg2, hm2, he⟩
      · rw [if_neg h, ih]
        constructor
        · rintro (hm | ⟨tg2, htg2, he⟩)
          · rcases List.mem_append.mp hm with h1 | h1
            · exact Or.inl h1
            · exact Or.inr ⟨tg, List.mem_cons_self tg rs, by simpa using h1⟩
          · exact Or.inr ⟨tg2, List.mem_cons_of_mem tg htg2, he⟩
        · rintro (hm | ⟨tg2, htg2, he⟩)
          · exact Or.inl (List.mem_append.mpr (Or.inl hm))
          · rcases List.mem_cons.mp htg2 with he2 | hm2
            · subst he2
              rw [he]
              exact Or.inl (List.mem_append.mpr (Or.inr (by simp)))
            · exact Or.inr ⟨tg2, hm2, he⟩

theorem mem_getTagsForTask {db : DB} {taskId : Nat} {ta : Tg} :
    ta ∈ getTagsForTask db taskId ↔
      ∃ a ∈ db.taskTags, a.1 = taskId ∧ ta ∈ db.tags ∧ ta.id = a.2 := by
  unfold getTagsForTask
  rw [List.mem_flatMap]
  constructor
  · rintro ⟨a, ha, hmem⟩
    by_cases h : a.1 = taskId
    · rw [if_pos h] at hmem
      rw [List.mem_filter] at hmem
      exact ⟨a, ha, h, hmem.1, by simpa using hmem.2⟩
    · rw [if_neg h] at hmem
      simp at hmem
  · rintro ⟨a, ha, h1, h2, h3⟩
    refine ⟨a, ha, ?_⟩
    rw [if_pos h1, List.mem_filter]
    exact ⟨h2, by simp [h3]⟩

theorem applyFieldUpdates_WF {db : DB} (id : Nat) (upd : UpdateData)
    (userId now : Nat) (existing : TaskWithTags) (h : WF db) :
    WF (applyFieldUpdates db id upd userId now existing) := by
  obtain ⟨h1, h2, h3⟩ := h
  refine ⟨?_, h2, h3⟩
  show ((db.tasks.map _).map Task.id).Nodup
  rw [List.map_map]
  have : ∀ t ∈ db.tasks, (Task.id ∘ fun t =>
      if t.id = id ∧ t.userId = userId then
        { t with
            title := upd.title.getD existing.task.title,
            description := upd.description.getD existing.task.description,
            completed := upd.completed.getD existing.task.completed,
            updatedAt := now }
      else t) t = Task.id t := by
    intro t _
    by_cases hc : t.id = id ∧ t.userId = userId
    · simp [hc]
    · simp [hc]
  rw [List.map_congr_left this]
  exact h1

theorem clearTags_WF {db : DB} (taskId : Nat) (h : WF db) :
    WF (clearTagsForTask db taskId) := h

theorem tag_row_unique {db : DB} (hWF : WF db) {ta ta2 : Tg}
    (h1 : ta ∈ db.tags) (h2 : ta2 ∈ db.tags) (hid : ta.id = ta2.id) :
    ta = ta2 :=
  List.inj_on_of_nodup_map hWF.2.1 h1 h2 hid

theorem addTagsToTask_eq {db : DB} {taskId : Nat} {names : List String}
    {userId : Nat} (hne : ¬ names = [])
    (hfound : (db.tasks.find? (fun t => t.id = taskId ∧ t.userId = userId)).isNone
      = false) :
    addTagsToTask db taskId names userId =
      { (resolveTags db names).2 with
          taskTags := insertAssocs taskId (resolveTags db names).1
            (resolveTags db names).2.taskTags } := by
  unfold addTagsToTask
  rw [if_neg hne, if_neg (by rw [hfound]; simp)]

theorem getTagsForTask_cleared (db1 : DB) (id : Nat) :
    getTagsForTask (clearTagsForTask db1 id) id = [] := by
  rw [List.eq_nil_iff_forall_not_mem]
  intro ta hta
  rw [mem_getTagsForTask] at hta
  obtain ⟨a, ha, h1, _, _⟩ := hta
  have ha2 : a ∈ db1.taskTags.filter (fun a => ¬ a.1 = id) := ha
  rw [List.mem_filter] at ha2
  have hno := ha2.2
  simp at hno
  exact hno h1

/-- After a clear followed by addTagsToTask, the canonical names attached
to the task are exactly the canonicalized non-empty requested names. -/
theorem tagSet_after_replace (db1 : DB) (id userId : Nat) (names : List String)
    (hWF1 : WF db1)
    (hfound : ((clearTagsForTask db1 id).tasks.find?
      (fun t => t.id = id ∧ t.userId = userId)).isNone = false)
    (hne : ¬ names = []) :
    ((getTagsForTask (addTagsToTask (clearTagsForTask db1 id) id names userId)
        id).map (fun ta => sqlLower ta.name)).toFinset =
      ((names.map canonName).filter (fun nm => ¬ nm = "")).toFinset := by
  rw [addTagsToTask_eq hne hfound]
  have hWFr : WF (resolveTags (clearTagsForTask db1 id) names).2 :=
    foldResolve_WF names ([], clearTagsForTask db1 id) (clearTags_WF id hWF1)
  have hTT : (resolveTags (clearTagsForTask db1 id) names).2.taskTags =
      (clearTagsForTask db1 id).taskTags :=
    foldResolve_taskTags names ([], clearTagsForTask db1 id)
  have hclear : ∀ a ∈ (clearTagsForTask db1 id).taskTags, ¬ a.1 = id := by
    intro a ha
    have ha2 : a ∈ db1.taskTags.filter (fun a => ¬ a.1 = id) := ha
    rw [List.mem_filter] at ha2
    have hno := ha2.2
    simpa using hno
  obtain ⟨spec1, _, spec3⟩ := foldResolve_spec names [] (clearTagsForTask db1 id)
  apply Finset.ext
  intro x
  rw [List.mem_toFinset, List.mem_toFinset, List.mem_map, List.mem_filter,
    List.mem_map]
  constructor
  · rintro ⟨ta, hta, hx⟩
    rw [mem_getTagsForTask] at hta
    obtain ⟨a, ha, ha1, htamem, htaid⟩ := hta
    rw [mem_insertAssocs] at ha
    rcases ha with hold | ⟨tg, htg, hae⟩
    · rw [hTT] at hold
      exact absurd ha1 (hclear a hold)
    · rcases spec1 tg htg with hacc | ⟨n, hn, hnm, hnce, ta0, hta0, hta0id, hta0low⟩
      · simp at hacc
      · have hta0id2 : ta.id = ta0.id := by
          rw [htaid, hae, hta0id]
        have htaeq : ta = ta0 := tag_row_unique hWFr htamem hta0 hta0id2
        refine ⟨⟨n, hn, ?_⟩, ?_⟩
        · rw [← hx, htaeq, hta0low, hnm]
        · rw [← hx, htaeq, hta0low, hnm]
          simpa using hnce
  · rintro ⟨⟨n, hn, hcn⟩, hxne⟩
    have hnce : ¬ canonName n = "" := by
      rw [hcn]
      simpa using hxne
    obtain ⟨tg, htg, hnm⟩ := spec3 n hn hnce
    rcases spec1 tg htg with hacc | ⟨m, _, _, _, ta0, hta0, hta0id, hta0low⟩
    · simp at hacc
    · refine ⟨ta0, ?_, ?_⟩
      · rw [mem_getTagsForTask]
        refine ⟨(id, tg.id), ?_, rfl, hta0, hta0id⟩
        rw [mem_insertAssocs]
        exact Or.inr ⟨tg, htg, rfl⟩
      · rw [hta0low, hnm, hcn]

/-! ### Claim theorems: partial-update frame conditions -/

/-- C6: for every owned task and every partial update, each of title,
description and completed changes exactly when that field is present in
the update (absent fields retain their prior values, id, createdAt and
owner are preserved, updatedAt is stamped); when the tags key is present
— even as an empty array — the canonical tag-name set attached to the
task afterwards is exactly the canonicalized new list (an empty or
all-blank list yields zero tags); when the tags key is absent the task's
tag associations are exactly those it had before. -/
theorem updateTask_frame (db : DB) (id : Nat) (upd : UpdateData)
    (userId now : Nat) (hWF : WF db) (ex : TaskWithTags)
    (hex : getTaskById db id userId = some ex) :
    ((updateTask db id upd userId now).2.tasks.find?
        (fun t => t.id = id ∧ t.userId = userId) =
      some { ex.task with
        title := upd.title.getD ex.task.title,
        description := upd.description.getD ex.task.description,
        completed := upd.completed.getD ex.task.completed,
        updatedAt := now }) ∧
    (∀ names, upd.tags = some names →
      ((getTagsForTask (updateTask db id upd userId now).2 id).map
          (fun ta => sqlLower ta.name)).toFinset =
        ((names.map canonName).filter (fun nm => ¬ nm = "")).toFinset) ∧
    (upd.tags = none →
      (updateTask db id upd userId now).2.taskTags.filter (fun a => a.1 = id) =
        db.taskTags.filter (fun a => a.1 = id)) := by
  have hfind := getTaskById_some_elim hex
  have hup := applyFieldUpdates_find db id upd userId now ex hfind
  have hWF1 : WF (applyFieldUpdates db id upd userId now ex) :=
    applyFieldUpdates_WF id upd userId now ex hWF
  rw [updateTask_found_eq upd now hex]
  refine ⟨?_, ?_, ?_⟩
  · show (applyTagUpdates (applyFieldUpdates db id upd userId now ex) id upd
        userId).tasks.find? (fun t => t.id = id ∧ t.userId = userId) = _
    rw [applyTagUpdates_tasks]
    exact hup
  · intro names hnames
    show ((getTagsForTask (applyTagUpdates (applyFieldUpdates db id upd userId now ex)
        id upd userId) id).map (fun ta => sqlLower ta.name)).toFinset = _
    unfold applyTagUpdates
    rw [hnames]
    show ((getTagsForTask (if names = [] then
          clearTagsForTask (applyFieldUpdates db id upd userId now ex) id
        else addTagsToTask
          (clearTagsForTask (applyFieldUpdates db id upd userId now ex) id)
          id names userId) id).map
        (fun ta => sqlLower ta.name)).toFinset =
      ((names.map canonName).filter (fun nm => ¬ nm = "")).toFinset
    by_cases hnil : names = []
    · rw [if_pos hnil, getTagsForTask_cleared, hnil]
      rfl
    · rw [if_neg hnil]
      refine tagSet_after_replace (applyFieldUpdates db id upd userId now ex)
        id userId names hWF1 ?_ hnil
      show ((applyFieldUpdates db id upd userId now ex).tasks.find?
        (fun t => t.id = id ∧ t.userId = userId)).isNone = false
      rw [hup]
      rfl
  · intro hnone
    show (applyTagUpdates (applyFieldUpdates db id upd userId now ex) id upd
        userId).taskTags.filter (fun a => a.1 = id) = _
    unfold applyTagUpdates
    rw [hnone]
    show (applyFieldUpdates db id upd userId now ex).taskTags.filter
        (fun a => a.1 = id) =
      db.taskTags.filter (fun a => a.1 = id)
    rfl

/-- Witness for the C6 theorem: a concrete update of task 1 that renames
the title and replaces the tags with a list containing whitespace, mixed
case and an empty segment. -/
theorem updateTask_frame_witness :
    (WF exDb ∧ getTaskById exDb 1 7 = some ⟨exTask1, [exTagA, exTagB]⟩) ∧
    (((updateTask exDb 1 exUpd 7 5).2.tasks.find?
        (fun t => t.id = 1 ∧ t.userId = 7) =
      some { exTask1 with
        title := exUpd.title.getD exTask1.title,
        description := exUpd.description.getD exTask1.description,
        completed := exUpd.completed.getD exTask1.completed,
        updatedAt := 5 }) ∧
    (∀ names, exUpd.tags = some names →
      ((getTagsForTask (updateTask exDb 1 exUpd 7 5).2 1).map
          (fun ta => sqlLower ta.name)).toFinset =
        ((names.map canonName).filter (fun nm => ¬ nm = "")).toFinset) ∧
    (exUpd.tags = none →
      (updateTask exDb 1 exUpd 7 5).2.taskTags.filter (fun a => a.1 = 1) =
        exDb.taskTags.filter (fun a => a.1 = 1))) :=
  ⟨⟨by decide, by decide⟩,
   updateTask_frame exDb 1 exUpd 7 5 (by decide) ⟨exTask1, [exTagA, exTagB]⟩
     (by decide)⟩

end TaskApi
